import Mathlib

/-!
# edly-curl: request construction and response splitting

A shallow embedding of `src/index.js`.

* JavaScript strings are Lean `String`s (sequences of Unicode scalar values; the strings the
  tool receives from the command line and from UTF-8 decoding are well formed).
* A value that may be `undefined` is an `Option`.
* A function that may `throw` returns `Except JSError _`; statements run in source order, so the
  first failing check decides the error.
* `main` ends by calling `handleSocketEvents(host, port, formattedHttpProtocol)`; the embedding
  returns the three arguments of that call as a `SocketCall`.
* `new URL(url)` belongs to the runtime, not to the repository: `main` takes the parser as a
  parameter `parseURL`, `none` standing for the `TypeError` of an invalid URL.
* Calls of `logger` and `console.log` change no value and are left out of the first embedding,
  except in `handleData`, whose only results are the two texts it logs; `data.toString()` is the
  decoded chunk.
* A second embedding, under `Traced`, keeps every call on the console, the logger and the
  network as a list of effects, and models the delivery of socket events to the listeners the
  program registers. It returns the same values and errors as the first.
-/

namespace EdlyCurl

/-! ## Runtime primitives -/

/-- JavaScript truthiness of a value that is a string or `undefined`: only `undefined` and the
empty string are falsy. -/
def truthy : Option String → Bool
  | none => false
  | some s => s != ""

/-- The expression `x || d` for `x` a string or `undefined` and `d` a string. -/
def orElse (x : Option String) (d : String) : String :=
  match x with
  | none => d
  | some s => if s != "" then s else d

/-- The call `xs.includes(x)` on an array of strings; `undefined` is never a member. -/
def includes (xs : List String) : Option String → Bool
  | none => false
  | some s => xs.contains s

/-- The call `s.startsWith(p)`. -/
def startsWith (s p : String) : Bool :=
  p.data.isPrefixOf s.data

/-- The call `xs.join(sep)` on an array of strings. -/
def join (xs : List String) (sep : String) : String :=
  String.intercalate sep xs

/-- The call `Buffer.byteLength(s)`: the number of bytes of the UTF-8 encoding of `s`. -/
def byteLength (s : String) : Nat :=
  s.utf8ByteSize

/-- The scan of `String.prototype.split` for a non-empty separator `sep`, on character lists.
`skip` counts the characters of a separator occurrence still to be passed over, `cur` holds the
characters of the current piece in reverse. An occurrence is recognised at the leftmost position
that is not inside an earlier occurrence. -/
def splitScan (sep : List Char) : List Char → Nat → List Char → List (List Char)
  | [], _, cur => [cur.reverse]
  | _ :: cs, skip + 1, cur => splitScan sep cs skip cur
  | c :: cs, 0, cur =>
    if sep.isPrefixOf (c :: cs) then cur.reverse :: splitScan sep cs (sep.length - 1) []
    else splitScan sep cs 0 (c :: cur)

/-- The call `s.split(sep)` for a non-empty separator. -/
def split (s sep : String) : List String :=
  (splitScan sep.data s.data 0 []).map String.mk

/-! ## Constants and errors -/

def ACCEPTED_PROTOCOLS : List String := ["http:", "https:"]

def ACCEPTED_METHODS : List String := ["GET", "DELETE", "PUT", "POST"]

def BODY_ALLOWED_METHODS : List String := ["POST", "PUT"]

/-- The error classes of the module, and `TypeError` for the failure of `new URL`. -/
inductive JSError
  | UnrecognisableProtocol
  | BadHttpMethod
  | BodyNotAllowedMethod
  | SocketConnectionError
  | NoContentTypeHeader
  | NoBodyError
  | TypeError
  deriving DecidableEq, Repr

deriving instance DecidableEq for Except

/-- The options object read by `main`: `const { method, body, header } = options`. -/
structure Options where
  method : Option String
  body : Option String
  header : Option (List String)
  deriving DecidableEq, Repr

/-- The fields `main` reads from `new URL(url)`. -/
structure URL where
  host : String
  pathname : String
  protocol : String
  deriving DecidableEq, Repr

/-- The arguments of the call `handleSocketEvents(host, port, formattedHttpProtocol)`. -/
structure SocketCall where
  host : String
  port : Nat
  httpProtocol : String
  deriving DecidableEq, Repr

/-! ## The functions of `index.js` -/

def validateMethod (method : Option String) : Except JSError String :=
  let httpMethod := orElse method "GET"
  if !ACCEPTED_METHODS.contains httpMethod then
    throw JSError.BadHttpMethod
  else
    pure httpMethod

def validateBody (body method : Option String) : Except JSError Unit :=
  if truthy body && !includes BODY_ALLOWED_METHODS method then
    throw JSError.BodyNotAllowedMethod
  else
    pure ()

def buildBaseProtocolText (host pathname protocol method : String)
    (headers : Option (List String)) : Except JSError (List String) :=
  if !ACCEPTED_PROTOCOLS.contains protocol then
    throw JSError.UnrecognisableProtocol
  else
    pure ([method ++ " " ++ pathname ++ " HTTP/1.1",
           "Host: " ++ host,
           "Accept: */*",
           "Connection: close"] ++ headers.getD [])

/-- The two values `handleData` logs: `headers` at debug level and `response` at info level.
A destructured element that does not exist is `undefined`. -/
structure Logged where
  debug : Option String
  info : Option String
  deriving DecidableEq, Repr

def handleData (data : String) : Logged :=
  let parts := split data "\r\n\r\n"
  { debug := parts[0]?, info := parts[1]? }

def checkForContentType (httpProtocol : List String) : Except JSError Unit :=
  let contentType := httpProtocol.filter (fun x => startsWith x "Content-Type")
  if contentType.length == 0 then
    throw JSError.NoContentTypeHeader
  else
    pure ()

def checkForBody (body : Option String) : Except JSError Unit :=
  if !truthy body then
    throw JSError.NoBodyError
  else
    pure ()

/-- The body extension. Where the source places `body` in the array, an `undefined` would be
rendered by `join` as the empty string; that case is not reached after `checkForBody`. -/
def putAndPostHttpExtension (body : Option String) (httpProtocol : List String) :
    Except JSError (List String) := do
  checkForBody body
  checkForContentType httpProtocol
  let bodyLength := if truthy body then byteLength (body.getD "") else 0
  let contentLengthHeader := "content-Length: " ++ toString bodyLength
  pure (httpProtocol ++ [contentLengthHeader, "", body.getD ""])

/-- The value of the variable `httpProtocol` of `main` when line 146 is reached, together with
the parsed URL: everything `main` does before serialising. -/
def mainLines (parseURL : String → Option URL) (url : String) (options : Options) :
    Except JSError (URL × List String) := do
  let httpMethod ← validateMethod options.method
  validateBody options.body options.method
  let u ← match parseURL url with
    | some u => pure u
    | none => throw JSError.TypeError
  let httpProtocol ← buildBaseProtocolText u.host u.pathname u.protocol httpMethod options.header
  let httpProtocol ←
    if includes BODY_ALLOWED_METHODS options.method then
      putAndPostHttpExtension options.body httpProtocol
    else
      pure httpProtocol
  pure (u, httpProtocol)

def main (parseURL : String → Option URL) (url : String) (options : Options) :
    Except JSError SocketCall := do
  let (u, httpProtocol) ← mainLines parseURL url options
  let port := if u.protocol == "http:" then 80 else 443
  let formattedHttpProtocol := join httpProtocol "\r\n" ++ "\r\n\r\n"
  pure { host := u.host, port := port, httpProtocol := formattedHttpProtocol }

/-- The four lines `buildBaseProtocolText` writes itself. -/
def standardLines (method pathname host : String) : List String :=
  [method ++ " " ++ pathname ++ " HTTP/1.1", "Host: " ++ host, "Accept: */*", "Connection: close"]

/-- The value of `s.length` in JavaScript: the number of UTF-16 code units of `s`. A character
outside the basic plane takes two units. -/
def utf16Length (s : String) : Nat :=
  (s.data.map (fun c => if c.toNat < 65536 then 1 else 2)).sum

/-- Values of `new URL` on the URLs used in the examples below. The table has no other entry:
every other text gives `none`, which is what `new URL` does on a text such as "not a url". -/
def exampleURL (url : String) : Option URL :=
  if url = "http://example.com/foo" then some ⟨"example.com", "/foo", "http:"⟩
  else if url = "https://example.com/foo" then some ⟨"example.com", "/foo", "https:"⟩
  else if url = "ftp://example.com/foo" then some ⟨"example.com", "/foo", "ftp:"⟩
  else none

/-- The reading of "differs only in letter case or surrounding whitespace": `normalise m` is `m`
without its leading and trailing whitespace and with its ASCII letters in upper case. -/
def normalise (m : String) : String :=
  ⟨(((m.data.dropWhile Char.isWhitespace).reverse.dropWhile Char.isWhitespace).reverse).map
    Char.toUpper⟩

/-- The variant of `mainLines` that C18 compares with the source: `validateBody` and the
POST/PUT test read the validated method `httpMethod` where the source reads the raw
`options.method`. -/
def mainLinesValidated (parseURL : String → Option URL) (url : String) (options : Options) :
    Except JSError (URL × List String) := do
  let httpMethod ← validateMethod options.method
  validateBody options.body (some httpMethod)
  let u ← match parseURL url with
    | some u => pure u
    | none => throw JSError.TypeError
  let httpProtocol ← buildBaseProtocolText u.host u.pathname u.protocol httpMethod options.header
  let httpProtocol ←
    if includes BODY_ALLOWED_METHODS (some httpMethod) then
      putAndPostHttpExtension options.body httpProtocol
    else
      pure httpProtocol
  pure (u, httpProtocol)

/-- The variant of `main` built on `mainLinesValidated`. -/
def mainValidated (parseURL : String → Option URL) (url : String) (options : Options) :
    Except JSError SocketCall := do
  let (u, httpProtocol) ← mainLinesValidated parseURL url options
  let port := if u.protocol == "http:" then 80 else 443
  let formattedHttpProtocol := join httpProtocol "\r\n" ++ "\r\n\r\n"
  pure { host := u.host, port := port, httpProtocol := formattedHttpProtocol }

/-! ## Effects

The second embedding keeps the calls the program makes on the console, the logger and the
network. A piece of program run to its end is a `Run`: the effects it performed, in source
order, and the value it returned or the error it threw. The functions of `index.js` are embedded
once more, under `Traced`, with every call of `logger`, `console` and `net` in its place.

The runtime is modelled as far as the source relies on it: the function given to
`net.createConnection` is a listener of the `connect` event that runs once; a function given to
`socket.on` runs at each event of its kind; an error thrown by a listener is not caught, and
ends the process. -/

/-- The calls on the console, the logger and the network. -/
inductive Effect
  | consoleLog (text : String)
  | loggerError (text : String)
  | loggerDebug (text : Option String)
  | loggerInfo (text : Option String)
  | createConnection (host : String) (port : Nat)
  | socketWrite (text : String)
  | socketEnd
  deriving DecidableEq, Repr

/-- The effects performed, in order, and the value returned or the error thrown. -/
structure Run (α : Type) where
  effects : List Effect
  result : Except JSError α

/-- Sequencing: the second part runs only if the first returned, after it. -/
def Run.bind {α β : Type} (x : Run α) (f : α → Run β) : Run β :=
  match x.result with
  | .error e => ⟨x.effects, .error e⟩
  | .ok a => ⟨x.effects ++ (f a).effects, (f a).result⟩

instance : Monad Run where
  pure a := ⟨[], .ok a⟩
  bind := Run.bind

/-- One call with an effect. -/
def perform (e : Effect) : Run Unit :=
  ⟨[e], .ok ()⟩

/-- The statement `throw new E()`. -/
def raise {α : Type} (e : JSError) : Run α :=
  ⟨[], .error e⟩

/-- The calls of `socket.write` among some effects, in order. -/
def writes (effects : List Effect) : List String :=
  effects.filterMap (fun e => match e with
    | .socketWrite text => some text
    | _ => none)

/-- An effect on the network: opening a connection, writing to the socket or ending it. -/
def Effect.onNetwork : Effect → Bool
  | .createConnection _ _ => true
  | .socketWrite _ => true
  | .socketEnd => true
  | _ => false

/-- A socket as the runtime holds it: the address it connects to and the listeners registered on
it. The listener given to `net.createConnection` is removed when it has run. -/
structure Socket where
  host : String
  port : Nat
  connectListener : Option (Run Unit)
  dataListeners : List (String → Run Unit)
  errorListeners : List (String → Run Unit)

/-- The events of a socket the program listens to. -/
inductive SocketEvent
  | connect
  | data (chunk : String)
  | error (message : String)
  deriving DecidableEq, Repr

namespace Traced

def validateMethod (method : Option String) : Run String :=
  let httpMethod := orElse method "GET"
  if !ACCEPTED_METHODS.contains httpMethod then
    raise JSError.BadHttpMethod
  else
    pure httpMethod

def validateBody (body method : Option String) : Run Unit :=
  if truthy body && !includes BODY_ALLOWED_METHODS method then do
    perform (.loggerError
      ("body provided for unsupported method type " ++ method.getD "undefined"))
    raise JSError.BodyNotAllowedMethod
  else
    pure ()

def buildBaseProtocolText (host pathname protocol method : String)
    (headers : Option (List String)) : Run (List String) :=
  if !ACCEPTED_PROTOCOLS.contains protocol then do
    perform (.loggerError ("uh oh edly-curl only supports " ++ join ACCEPTED_PROTOCOLS "," ++
      ", " ++ protocol ++ " provided"))
    raise JSError.UnrecognisableProtocol
  else do
    perform (.consoleLog method)
    pure ([method ++ " " ++ pathname ++ " HTTP/1.1",
           "Host: " ++ host,
           "Accept: */*",
           "Connection: close"] ++ headers.getD [])

def createSocketConnection (host : String) (port : Nat) (protocolText : String) :
    Run Socket := do
  perform (.createConnection host port)
  pure { host := host, port := port,
         connectListener := some (perform (.socketWrite protocolText)),
         dataListeners := [], errorListeners := [] }

def handleData (data : String) : Run Unit := do
  let parts := split data "\r\n\r\n"
  perform (.loggerDebug parts[0]?)
  perform (.loggerInfo parts[1]?)

/-- The socket is returned to stand for the one the runtime keeps after the call. -/
def handleSocketEvents (host : String) (port : Nat) (httpProtocol : String) : Run Socket := do
  let socket ← createSocketConnection host port httpProtocol
  let socket := { socket with
    dataListeners := socket.dataListeners ++ [fun data => handleData data] }
  let socket := { socket with
    errorListeners := socket.errorListeners ++ [fun message => do
      perform (.loggerError ("Error: " ++ message))
      perform .socketEnd
      raise JSError.SocketConnectionError] }
  pure socket

def checkForContentType (httpProtocol : List String) : Run Unit :=
  let contentType := httpProtocol.filter (fun x => startsWith x "Content-Type")
  if contentType.length == 0 then do
    perform (.loggerError "No Content-Type header has been supplied")
    raise JSError.NoContentTypeHeader
  else
    pure ()

def checkForBody (body : Option String) : Run Unit :=
  if !truthy body then do
    perform (.loggerError "no body has identified")
    raise JSError.NoBodyError
  else
    pure ()

def putAndPostHttpExtension (body : Option String) (httpProtocol : List String) :
    Run (List String) := do
  checkForBody body
  checkForContentType httpProtocol
  let bodyLength := if truthy body then byteLength (body.getD "") else 0
  let contentLengthHeader := "content-Length: " ++ toString bodyLength
  pure (httpProtocol ++ [contentLengthHeader, "", body.getD ""])

/-- The statements of `main` before the call of `handleSocketEvents`; the value is the three
arguments of that call. -/
def mainRequest (parseURL : String → Option URL) (url : String) (options : Options) :
    Run SocketCall := do
  let httpMethod ← validateMethod options.method
  validateBody options.body options.method
  let u ← match parseURL url with
    | some u => pure u
    | none => raise JSError.TypeError
  let port := if u.protocol == "http:" then 80 else 443
  let httpProtocol ← buildBaseProtocolText u.host u.pathname u.protocol httpMethod options.header
  let httpProtocol ←
    if includes BODY_ALLOWED_METHODS options.method then
      putAndPostHttpExtension options.body httpProtocol
    else
      pure httpProtocol
  let formattedHttpProtocol := join httpProtocol "\r\n" ++ "\r\n\r\n"
  perform (.loggerDebug (some formattedHttpProtocol))
  pure { host := u.host, port := port, httpProtocol := formattedHttpProtocol }

def main (parseURL : String → Option URL) (url : String) (options : Options) : Run Socket := do
  let call ← mainRequest parseURL url options
  handleSocketEvents call.host call.port call.httpProtocol

end Traced

/-- The listeners of one kind run in the order of their registration. -/
def runListeners (listeners : List (String → Run Unit)) (argument : String) : Run Unit :=
  match listeners with
  | [] => pure ()
  | listener :: rest => do
    listener argument
    runListeners rest argument

/-- The runtime delivers one event to the socket. -/
def emit (socket : Socket) : SocketEvent → Run Socket
  | .connect =>
    match socket.connectListener with
    | some listener => do
      listener
      pure { socket with connectListener := none }
    | none => pure socket
  | .data chunk => do
    runListeners socket.dataListeners chunk
    pure socket
  | .error message => do
    runListeners socket.errorListeners message
    pure socket

/-- The runtime delivers a sequence of events, one after the other, until a listener throws. -/
def emitAll (socket : Socket) : List SocketEvent → Run Socket
  | [] => pure socket
  | event :: rest => do
    let socket ← emit socket event
    emitAll socket rest

/-- A run that performs no effect on the network. -/
def Run.quiet {α : Type} (r : Run α) : Prop :=
  ∀ e ∈ r.effects, e.onNetwork = false

/-- What the socket of `handleSocketEvents` keeps through all events: no listener of `data` or
`error` writes to the socket, the listeners of `data` return, and the listener of `connect` is
either the one that writes `text` or has run and is gone. -/
def Socket.listening (text : String) (s : Socket) : Prop :=
  (∀ l ∈ s.dataListeners, ∀ chunk, writes (l chunk).effects = [] ∧ (l chunk).result = .ok ()) ∧
    (∀ l ∈ s.errorListeners, ∀ message, writes (l message).effects = []) ∧
    (s.connectListener = none ∨ s.connectListener = some (perform (.socketWrite text)))

end EdlyCurl

namespace EdlyCurl

/-! ## Lemmas on the runtime primitives -/

theorem startsWith_iff (s p : String) : startsWith s p = true ↔ ∃ t : String, s = p ++ t := by
  unfold startsWith
  rw [List.isPrefixOf_iff_prefix]
  constructor
  · rintro ⟨t, ht⟩
    exact ⟨⟨t⟩, String.ext (by simp [ht])⟩
  · rintro ⟨t, rfl⟩
    exact ⟨t.data, by simp⟩

theorem truthy_some (b : String) : truthy (some b) = true ↔ b ≠ "" := by
  simp [truthy]

theorem validateMethod_accepted (m : String) (hm : m ∈ ACCEPTED_METHODS) :
    validateMethod (some m) = .ok m := by
  simp only [ACCEPTED_METHODS, List.mem_cons, List.mem_singleton, List.not_mem_nil, or_false] at hm
  rcases hm with rfl | rfl | rfl | rfl <;> decide

theorem checkForContentType_ok_iff (lines : List String) :
    checkForContentType lines = .ok () ↔ ∃ l ∈ lines, ∃ t : String, l = "Content-Type" ++ t := by
  unfold checkForContentType
  by_cases h : ∃ l ∈ lines, startsWith l "Content-Type" = true
  · have h2 : ∃ l ∈ lines, ∃ t : String, l = "Content-Type" ++ t := by
      obtain ⟨l, hl, hs⟩ := h
      exact ⟨l, hl, (startsWith_iff _ _).1 hs⟩
    have h3 : (List.filter (fun x => startsWith x "Content-Type") lines).length ≠ 0 := by
      obtain ⟨l, hl, hs⟩ := h
      have : l ∈ List.filter (fun x => startsWith x "Content-Type") lines :=
        List.mem_filter.2 ⟨hl, hs⟩
      exact List.length_pos_iff_ne_nil.2 (List.ne_nil_of_mem this) |>.ne'
    simp [h3, h2, pure, Except.pure]
  · have h2 : ¬ ∃ l ∈ lines, ∃ t : String, l = "Content-Type" ++ t := by
      rintro ⟨l, hl, ht⟩
      exact h ⟨l, hl, (startsWith_iff _ _).2 ht⟩
    have h3 : (List.filter (fun x => startsWith x "Content-Type") lines).length = 0 := by
      rw [List.length_eq_zero, List.filter_eq_nil_iff]
      intro l hl hs
      exact h ⟨l, hl, hs⟩
    simp only [h3, h2, iff_false]
    simp [throw, throwThe, MonadExceptOf.throw]

theorem checkForContentType_error_iff (lines : List String) :
    checkForContentType lines = .error JSError.NoContentTypeHeader ↔
      ¬ ∃ l ∈ lines, ∃ t : String, l = "Content-Type" ++ t := by
  rw [← checkForContentType_ok_iff]
  by_cases h : (List.filter (fun x => startsWith x "Content-Type") lines).length = 0 <;>
    simp [checkForContentType, h, throw, throwThe, MonadExceptOf.throw, pure, Except.pure]

theorem putAndPostHttpExtension_ok (body : String) (lines : List String) (hbody : body ≠ "")
    (hct : ∃ l ∈ lines, ∃ t : String, l = "Content-Type" ++ t) :
    putAndPostHttpExtension (some body) lines =
      .ok (lines ++ ["content-Length: " ++ toString body.toUTF8.size, "", body]) := by
  have h1 : checkForBody (some body) = .ok () := by
    simp [checkForBody, truthy, hbody, pure, Except.pure]
  have h2 := (checkForContentType_ok_iff lines).2 hct
  simp [putAndPostHttpExtension, h1, h2, truthy, hbody, byteLength, bind, Except.bind, pure,
    Except.pure]

theorem putAndPostHttpExtension_noContentType (body : String) (lines : List String)
    (hbody : body ≠ "") (hct : ¬ ∃ l ∈ lines, ∃ t : String, l = "Content-Type" ++ t) :
    putAndPostHttpExtension (some body) lines = .error JSError.NoContentTypeHeader := by
  have h1 : checkForBody (some body) = .ok () := by
    simp [checkForBody, truthy, hbody, pure, Except.pure]
  have h2 := (checkForContentType_error_iff lines).2 hct
  simp [putAndPostHttpExtension, h1, h2, bind, Except.bind]

theorem standardLines_no_contentType (method pathname host : String)
    (hmethod : method = "POST" ∨ method = "PUT") :
    ∀ l ∈ standardLines method pathname host, ¬ ∃ t : String, l = "Content-Type" ++ t := by
  intro l hl
  rw [← startsWith_iff]
  simp only [standardLines, List.mem_cons, List.mem_singleton, List.not_mem_nil, or_false] at hl
  rcases hmethod with rfl | rfl <;> rcases hl with rfl | rfl | rfl | rfl <;>
    simp only [Bool.not_eq_true] <;> rfl

/-- What `main` does for POST and PUT on an accepted scheme with a non-empty body: the result
is that of the body extension applied to the standard lines and the custom headers. -/
theorem mainLines_body_method (parseURL : String → Option URL)
    (url host pathname protocol method : String) (body : Option String)
    (header : Option (List String))
    (hurl : parseURL url = some ⟨host, pathname, protocol⟩)
    (hscheme : protocol = "http:" ∨ protocol = "https:")
    (hmethod : method = "POST" ∨ method = "PUT") :
    mainLines parseURL url ⟨some method, body, header⟩ =
      (putAndPostHttpExtension body (standardLines method pathname host ++ header.getD [])).map
        (fun lines => (⟨host, pathname, protocol⟩, lines)) := by
  rcases hscheme with rfl | rfl <;> rcases hmethod with rfl | rfl <;>
    cases h : putAndPostHttpExtension body
      (standardLines _ pathname host ++ header.getD []) <;>
    simp [standardLines] at h <;>
    simp [mainLines, hurl, validateMethod, validateBody, buildBaseProtocolText, orElse,
      truthy, includes, ACCEPTED_METHODS, ACCEPTED_PROTOCOLS, BODY_ALLOWED_METHODS,
      bind, Except.bind, pure, Except.pure, Except.map, h]

theorem two_le_utf8Size (c : Char) (h : 128 ≤ c.toNat) : 2 ≤ c.utf8Size := by
  unfold Char.utf8Size
  have h1 : ¬ c.val ≤ UInt32.ofNatCore 127 (by decide) := by
    intro hle
    have : c.val.toNat ≤ 127 := hle
    simp only [Char.toNat] at h
    omega
  simp only [h1, if_false]
  split <;> [skip; split] <;> omega

theorem utf16_le_utf8Size (c : Char) : (if c.toNat < 65536 then 1 else 2) ≤ c.utf8Size := by
  unfold Char.utf8Size
  by_cases h : c.toNat < 65536
  · simp only [h, if_true]
    split <;> [skip; split <;> [skip; split]] <;> omega
  · have h1 : ¬ c.val ≤ UInt32.ofNatCore 127 (by decide) := by
      intro hle
      have : c.val.toNat ≤ 127 := hle
      simp only [Char.toNat] at h
      omega
    have h2 : ¬ c.val ≤ UInt32.ofNatCore 2047 (by decide) := by
      intro hle
      have : c.val.toNat ≤ 2047 := hle
      simp only [Char.toNat] at h
      omega
    simp only [h, h1, h2, if_false]
    split <;> omega

theorem length_le_utf8 (l : List Char) : l.length ≤ String.utf8ByteSize.go l := by
  induction l with
  | nil => simp [String.utf8ByteSize.go]
  | cons c cs ih =>
    have := Char.utf8Size_pos c
    simp only [List.length_cons, String.utf8ByteSize.go]
    omega

theorem utf16_le_utf8 (l : List Char) :
    (l.map (fun c => if c.toNat < 65536 then 1 else 2)).sum ≤ String.utf8ByteSize.go l := by
  induction l with
  | nil => simp [String.utf8ByteSize.go]
  | cons c cs ih =>
    have := utf16_le_utf8Size c
    simp only [List.map_cons, List.sum_cons, String.utf8ByteSize.go]
    omega

theorem length_lt_utf8 (l : List Char) (h : ∃ c ∈ l, 128 ≤ c.toNat) :
    l.length < String.utf8ByteSize.go l := by
  induction l with
  | nil => simp at h
  | cons c cs ih =>
    simp only [List.length_cons, String.utf8ByteSize.go]
    obtain ⟨d, hd, h128⟩ := h
    rcases List.mem_cons.1 hd with rfl | hd
    · have := two_le_utf8Size d h128
      have := length_le_utf8 cs
      omega
    · have := ih ⟨d, hd, h128⟩
      have := Char.utf8Size_pos c
      omega

theorem utf16_lt_utf8 (l : List Char) (h : ∃ c ∈ l, 128 ≤ c.toNat) :
    (l.map (fun c => if c.toNat < 65536 then 1 else 2)).sum < String.utf8ByteSize.go l := by
  induction l with
  | nil => simp at h
  | cons c cs ih =>
    simp only [List.map_cons, List.sum_cons, String.utf8ByteSize.go]
    obtain ⟨d, hd, h128⟩ := h
    rcases List.mem_cons.1 hd with rfl | hd
    · have h2 := two_le_utf8Size d h128
      have h3 := utf16_le_utf8Size d
      have := utf16_le_utf8 cs
      by_cases hd : d.toNat < 65536
      · simp only [hd, if_true] at h3 ⊢
        omega
      · simp only [hd, if_false] at h3 ⊢
        have h4 : 4 ≤ d.utf8Size := by
          unfold Char.utf8Size
          have e1 : ¬ d.val ≤ UInt32.ofNatCore 127 (by decide) := by
            intro hle
            have : d.val.toNat ≤ 127 := hle
            simp only [Char.toNat] at hd
            omega
          have e2 : ¬ d.val ≤ UInt32.ofNatCore 2047 (by decide) := by
            intro hle
            have : d.val.toNat ≤ 2047 := hle
            simp only [Char.toNat] at hd
            omega
          have e3 : ¬ d.val ≤ UInt32.ofNatCore 65535 (by decide) := by
            intro hle
            have : d.val.toNat ≤ 65535 := hle
            simp only [Char.toNat] at hd
            omega
          simp only [e1, e2, e3, if_false, le_refl]
        omega
    · have := ih ⟨d, hd, h128⟩
      have := utf16_le_utf8Size c
      omega

theorem utf8ByteSize_eq_go (s : String) : s.utf8ByteSize = String.utf8ByteSize.go s.data := by
  cases s
  rfl

/-! ## Request construction -/

/-- C1: for every host, pathname and accepted scheme, every method that is absent, GET or DELETE,
an absent body and every list of custom headers, the request `main` constructs is the request
line, `Host`, `Accept` and `Connection` lines followed by the custom headers in the order
supplied, joined with CRLF and followed by CRLF CRLF; nothing else is added. -/
theorem main_request_without_body (parseURL : String → Option URL)
    (url host pathname protocol : String) (method : Option String)
    (header : Option (List String))
    (hurl : parseURL url = some ⟨host, pathname, protocol⟩)
    (hscheme : protocol = "http:" ∨ protocol = "https:")
    (hmethod : method = none ∨ method = some "GET" ∨ method = some "DELETE") :
    main parseURL url ⟨method, none, header⟩ =
      .ok ⟨host, if protocol = "http:" then 80 else 443,
        String.intercalate "\r\n"
          ([method.getD "GET" ++ " " ++ pathname ++ " HTTP/1.1", "Host: " ++ host,
            "Accept: */*", "Connection: close"] ++ header.getD []) ++ "\r\n\r\n"⟩ := by
  rcases hscheme with rfl | rfl <;> rcases hmethod with rfl | rfl | rfl <;>
    simp [main, mainLines, hurl, validateMethod, validateBody, buildBaseProtocolText, orElse,
      truthy, includes, ACCEPTED_METHODS, ACCEPTED_PROTOCOLS, BODY_ALLOWED_METHODS, join,
      bind, Except.bind, pure, Except.pure]

/-- C1, the example of the specification: GET, host example.com, pathname /foo, no headers. -/
theorem main_request_without_body_witness :
    main exampleURL "http://example.com/foo" ⟨none, none, none⟩ =
      .ok ⟨"example.com", 80,
        "GET /foo HTTP/1.1\r\nHost: example.com\r\nAccept: */*\r\nConnection: close\r\n\r\n"⟩ :=
  main_request_without_body exampleURL "http://example.com/foo" "example.com" "/foo" "http:"
    none none (by decide) (by decide) (by decide)

/-- C2: for POST and PUT on an accepted scheme, with a non-empty body and a custom header that
starts with `Content-Type`, the request `main` constructs is the four standard lines, the custom
headers in order, `content-Length: n` with `n` the byte length of the body, an empty line and
the raw body, joined with CRLF and followed by CRLF CRLF. -/
theorem main_request_with_body (parseURL : String → Option URL)
    (url host pathname protocol method body : String) (header : Option (List String))
    (hurl : parseURL url = some ⟨host, pathname, protocol⟩)
    (hscheme : protocol = "http:" ∨ protocol = "https:")
    (hmethod : method = "POST" ∨ method = "PUT")
    (hbody : body ≠ "")
    (hct : ∃ h ∈ header.getD [], ∃ t : String, h = "Content-Type" ++ t) :
    main parseURL url ⟨some method, some body, header⟩ =
      .ok ⟨host, if protocol = "http:" then 80 else 443,
        String.intercalate "\r\n"
          ([method ++ " " ++ pathname ++ " HTTP/1.1", "Host: " ++ host,
            "Accept: */*", "Connection: close"] ++ header.getD [] ++
           ["content-Length: " ++ toString body.toUTF8.size, "", body]) ++ "\r\n\r\n"⟩ := by
  have hct2 : ∃ l ∈ standardLines method pathname host ++ header.getD [],
      ∃ t : String, l = "Content-Type" ++ t := by
    obtain ⟨h, hh, ht⟩ := hct
    exact ⟨h, List.mem_append_right _ hh, ht⟩
  have h := mainLines_body_method parseURL url host pathname protocol method (some body) header
    hurl hscheme hmethod
  rw [putAndPostHttpExtension_ok body _ hbody hct2] at h
  rcases hscheme with rfl | rfl <;>
    simp [main, h, Except.map, join, standardLines, bind, Except.bind, pure, Except.pure]

/-- C2, the example of the specification: POST with the 7-byte body and one Content-Type header
yields the line `content-Length: 7`. -/
theorem main_request_with_body_witness :
    main exampleURL "http://example.com/foo"
        ⟨some "POST", some "\x7b\"a\":1\x7d", some ["Content-Type: application/json"]⟩ =
      .ok ⟨"example.com", 80,
        "POST /foo HTTP/1.1\r\nHost: example.com\r\nAccept: */*\r\nConnection: close\r\nContent-Type: application/json\r\ncontent-Length: 7\r\n\r\n\x7b\"a\":1\x7d\r\n\r\n"⟩ :=
  main_request_with_body exampleURL "http://example.com/foo" "example.com" "/foo" "http:"
    "POST" "\x7b\"a\":1\x7d" (some ["Content-Type: application/json"])
    (by decide) (by decide) (by decide) (by decide)
    ⟨"Content-Type: application/json", by decide, ": application/json", by decide⟩

/-- C3: for every non-empty body, the number `putAndPostHttpExtension` writes in the
`content-Length` line is the length in bytes of the UTF-8 encoding of the body. It is never
below the number of characters (counted as Unicode characters or as UTF-16 code units), and it
is strictly greater as soon as the body contains a character outside ASCII. -/
theorem contentLength_is_utf8_byte_length (body : String) (httpProtocol : List String)
    (hbody : body ≠ "")
    (hct : ∃ l ∈ httpProtocol, ∃ t : String, l = "Content-Type" ++ t) :
    putAndPostHttpExtension (some body) httpProtocol =
        .ok (httpProtocol ++ ["content-Length: " ++ toString body.toUTF8.size, "", body]) ∧
      body.length ≤ body.toUTF8.size ∧
      utf16Length body ≤ body.toUTF8.size ∧
      ((∃ c ∈ body.data, 128 ≤ c.toNat) →
        body.length < body.toUTF8.size ∧ utf16Length body < body.toUTF8.size) := by
  refine ⟨putAndPostHttpExtension_ok body httpProtocol hbody hct, ?_, ?_, ?_⟩
  · rw [String.size_toUTF8, utf8ByteSize_eq_go]
    exact length_le_utf8 body.data
  · rw [String.size_toUTF8, utf8ByteSize_eq_go]
    exact utf16_le_utf8 body.data
  · intro h
    rw [String.size_toUTF8, utf8ByteSize_eq_go]
    exact ⟨length_lt_utf8 body.data h, utf16_lt_utf8 body.data h⟩

/-- C3, the example of the claim: the body "é" is one character and two bytes, and the line
written is `content-Length: 2`. -/
theorem contentLength_is_utf8_byte_length_witness :
    putAndPostHttpExtension (some "é") ["Content-Type: text/plain"] =
        .ok ["Content-Type: text/plain", "content-Length: 2", "", "é"] ∧
      "é".length = 1 ∧ utf16Length "é" = 1 ∧ "é".length < "é".toUTF8.size := by
  have h := contentLength_is_utf8_byte_length "é" ["Content-Type: text/plain"] (by decide)
    ⟨"Content-Type: text/plain", by decide, ": text/plain", by decide⟩
  refine ⟨?_, by decide, by decide, (h.2.2.2 ⟨'é', by decide, by decide⟩).1⟩
  rw [h.1]
  simp only [String.size_toUTF8]
  decide

/-! ## Validation failures -/

/-- C4: for POST and PUT on an accepted scheme with a non-empty body, `main` succeeds exactly
when some custom header starts with the case-sensitive prefix `Content-Type`, and fails with
`NoContentTypeHeader` otherwise; the four standard lines never satisfy the check by
themselves. -/
theorem main_content_type_required (parseURL : String → Option URL)
    (url host pathname protocol method body : String) (header : Option (List String))
    (hurl : parseURL url = some ⟨host, pathname, protocol⟩)
    (hscheme : protocol = "http:" ∨ protocol = "https:")
    (hmethod : method = "POST" ∨ method = "PUT")
    (hbody : body ≠ "") :
    ((∃ call, main parseURL url ⟨some method, some body, header⟩ = .ok call) ↔
        ∃ h ∈ header.getD [], ∃ t : String, h = "Content-Type" ++ t) ∧
      ((¬ ∃ h ∈ header.getD [], ∃ t : String, h = "Content-Type" ++ t) →
        main parseURL url ⟨some method, some body, header⟩ =
          .error JSError.NoContentTypeHeader) ∧
      checkForContentType [method ++ " " ++ pathname ++ " HTTP/1.1", "Host: " ++ host,
        "Accept: */*", "Connection: close"] = .error JSError.NoContentTypeHeader := by
  have hstd := standardLines_no_contentType method pathname host hmethod
  have hlines := mainLines_body_method parseURL url host pathname protocol method (some body)
    header hurl hscheme hmethod
  have hfail : (¬ ∃ h ∈ header.getD [], ∃ t : String, h = "Content-Type" ++ t) →
      main parseURL url ⟨some method, some body, header⟩ =
        .error JSError.NoContentTypeHeader := by
    intro hno
    have hno2 : ¬ ∃ l ∈ standardLines method pathname host ++ header.getD [],
        ∃ t : String, l = "Content-Type" ++ t := by
      rintro ⟨l, hl, ht⟩
      rcases List.mem_append.1 hl with hl | hl
      · exact hstd l hl ht
      · exact hno ⟨l, hl, ht⟩
    rw [putAndPostHttpExtension_noContentType body _ hbody hno2] at hlines
    simp [main, hlines, Except.map, bind, Except.bind]
  refine ⟨⟨?_, ?_⟩, hfail, ?_⟩
  · rintro ⟨call, hcall⟩
    by_contra hno
    rw [hfail hno] at hcall
    cases hcall
  · intro hct
    have hct2 : ∃ l ∈ standardLines method pathname host ++ header.getD [],
        ∃ t : String, l = "Content-Type" ++ t := by
      obtain ⟨h, hh, ht⟩ := hct
      exact ⟨h, List.mem_append_right _ hh, ht⟩
    rw [putAndPostHttpExtension_ok body _ hbody hct2] at hlines
    simp [main, hlines, Except.map, bind, Except.bind, pure, Except.pure]
  · rw [checkForContentType_error_iff]
    rintro ⟨l, hl, ht⟩
    exact hstd l hl ht

/-- C4 on an example: a header written `content-type` does not satisfy the check, so the POST
request fails with `NoContentTypeHeader`. -/
theorem main_content_type_required_witness :
    main exampleURL "http://example.com/foo"
        ⟨some "POST", some "x", some ["content-type: application/json"]⟩ =
      .error JSError.NoContentTypeHeader :=
  (main_content_type_required exampleURL "http://example.com/foo" "example.com" "/foo" "http:"
    "POST" "x" (some ["content-type: application/json"])
    (by decide) (by decide) (by decide) (by decide)).2.1
    (by
      rintro ⟨h, hh, ht⟩
      simp only [Option.getD_some, List.mem_singleton] at hh
      subst hh
      have hs := (startsWith_iff _ _).2 ht
      revert hs
      decide)

/-- C5: for POST and PUT on an accepted scheme, an absent or empty body makes `main` fail with
`NoBodyError`, whatever the headers are, also when no Content-Type header is present. -/
theorem main_no_body_error (parseURL : String → Option URL)
    (url host pathname protocol method : String) (body : Option String)
    (header : Option (List String))
    (hurl : parseURL url = some ⟨host, pathname, protocol⟩)
    (hscheme : protocol = "http:" ∨ protocol = "https:")
    (hmethod : method = "POST" ∨ method = "PUT")
    (hbody : body = none ∨ body = some "") :
    main parseURL url ⟨some method, body, header⟩ = .error JSError.NoBodyError := by
  have hlines := mainLines_body_method parseURL url host pathname protocol method body
    header hurl hscheme hmethod
  have hext : ∀ lines, putAndPostHttpExtension body lines = .error JSError.NoBodyError := by
    intro lines
    rcases hbody with rfl | rfl <;>
      simp [putAndPostHttpExtension, checkForBody, truthy, bind, Except.bind, throw, throwThe,
        MonadExceptOf.throw]
  rw [hext] at hlines
  simp [main, hlines, Except.map, bind, Except.bind]

/-- C5 on the example of the specification: PUT with no body and no header at all. -/
theorem main_no_body_error_witness :
    main exampleURL "https://example.com/foo" ⟨some "PUT", none, none⟩ =
      .error JSError.NoBodyError :=
  main_no_body_error exampleURL "https://example.com/foo" "example.com" "/foo" "https:" "PUT"
    none none (by decide) (by decide) (by decide) (by decide)

/-- C6 as stated fails at the empty string: it is none of GET, DELETE, PUT, POST, yet
`validateMethod` does not fail on it; `method || "GET"` replaces it by GET. -/
theorem validateMethod_empty_string_accepted :
    "" ∉ ["GET", "DELETE", "PUT", "POST"] ∧
      validateMethod (some "") ≠ .error JSError.BadHttpMethod ∧
      validateMethod (some "") = .ok "GET" := by
  decide

/-- C6, amended: for every supplied method string that is not empty and not one of GET, DELETE,
PUT, POST, `validateMethod` fails with `BadHttpMethod`; for an absent method, and for the empty
string, it returns GET. -/
theorem validateMethod_rejects_unknown (method : String) (hne : method ≠ "")
    (hm : method ∉ ["GET", "DELETE", "PUT", "POST"]) :
    validateMethod (some method) = .error JSError.BadHttpMethod ∧
      validateMethod none = .ok "GET" ∧
      validateMethod (some "") = .ok "GET" := by
  refine ⟨?_, by decide, by decide⟩
  simp only [List.mem_cons, List.mem_singleton, List.not_mem_nil, or_false, not_or] at hm
  simp [validateMethod, orElse, hne, ACCEPTED_METHODS, hm, throw, throwThe, MonadExceptOf.throw]

/-- C6 on an example: PATCH is rejected. -/
theorem validateMethod_rejects_unknown_witness :
    validateMethod (some "PATCH") = .error JSError.BadHttpMethod :=
  (validateMethod_rejects_unknown "PATCH" (by decide) (by decide)).1

/-- C7: `validateBody body method` fails with `BodyNotAllowedMethod` exactly when the body is a
non-empty string and the method is neither POST nor PUT (an absent method included); in every
other case, in particular for POST and PUT whatever the body, it returns normally. -/
theorem validateBody_fails_iff (body method : Option String) :
    (validateBody body method = .error JSError.BodyNotAllowedMethod ↔
        (∃ b : String, body = some b ∧ b ≠ "") ∧ method ≠ some "POST" ∧ method ≠ some "PUT") ∧
      (validateBody body method = .ok () ↔
        ¬ ((∃ b : String, body = some b ∧ b ≠ "") ∧
            method ≠ some "POST" ∧ method ≠ some "PUT")) := by
  have ht : truthy body = true ↔ ∃ b : String, body = some b ∧ b ≠ "" := by
    cases body <;> simp [truthy]
  have hi : includes BODY_ALLOWED_METHODS method = true ↔
      (method = some "POST" ∨ method = some "PUT") := by
    cases method <;> simp [includes, BODY_ALLOWED_METHODS]
  unfold validateBody
  by_cases h1 : truthy body = true <;> by_cases h2 : includes BODY_ALLOWED_METHODS method = true
  all_goals
    have h1' := h1
    have h2' := h2
    rw [ht] at h1'
    rw [hi] at h2'
    simp only [h1, h2]
    simp [h1', throw, throwThe, MonadExceptOf.throw, pure, Except.pure]
    try tauto

/-- C8: `buildBaseProtocolText` fails with `UnrecognisableProtocol` exactly when the protocol is
neither `http:` nor `https:`, for all hosts, pathnames, methods and headers, and returns its
lines exactly when the protocol is one of the two. -/
theorem buildBaseProtocolText_scheme (host pathname protocol method : String)
    (headers : Option (List String)) :
    (buildBaseProtocolText host pathname protocol method headers =
          .error JSError.UnrecognisableProtocol ↔
        ¬ (protocol = "http:" ∨ protocol = "https:")) ∧
      ((∃ lines, buildBaseProtocolText host pathname protocol method headers = .ok lines) ↔
        (protocol = "http:" ∨ protocol = "https:")) := by
  by_cases h : protocol = "http:" ∨ protocol = "https:"
  · have hc : protocol ∈ ACCEPTED_PROTOCOLS := by
      rcases h with rfl | rfl <;> decide
    simp [buildBaseProtocolText, hc, h, pure, Except.pure]
  · have hc : protocol ∉ ACCEPTED_PROTOCOLS := by
      simp only [not_or] at h
      simp [ACCEPTED_PROTOCOLS, h]
    simp [buildBaseProtocolText, hc, h, throw, throwThe, MonadExceptOf.throw]

/-! ## Splitting the request on CRLF -/

theorem intercalate_go_data (sep : String) (xs : List String) :
    ∀ acc : String, (String.intercalate.go acc sep xs).data =
      acc.data ++ (xs.map (fun x => sep.data ++ x.data)).flatten := by
  induction xs with
  | nil => intro acc; simp [String.intercalate.go]
  | cons x xs ih =>
    intro acc
    simp [String.intercalate.go, ih, String.data_append, List.append_assoc]

theorem not_prefix_crlf (c : Char) (l rest : List Char)
    (h : ¬ ['\r', '\n'] <:+: c :: l) :
    ¬ ['\r', '\n'] <+: c :: (l ++ '\r' :: '\n' :: rest) := by
  intro hp
  rw [List.cons_prefix_cons] at hp
  obtain ⟨hc, hp⟩ := hp
  cases l with
  | nil =>
    rw [List.nil_append, List.cons_prefix_cons] at hp
    exact absurd hp.1 (by decide)
  | cons d l =>
    rw [List.cons_append, List.cons_prefix_cons] at hp
    apply h
    rw [← hc, ← hp.1]
    exact (List.prefix_append ['\r', '\n'] l).isInfix

theorem splitScan_crlf_piece (l : List Char) (h : ¬ ['\r', '\n'] <:+: l) :
    ∀ cur rest : List Char, splitScan ['\r', '\n'] (l ++ '\r' :: '\n' :: rest) 0 cur =
      (cur.reverse ++ l) :: splitScan ['\r', '\n'] rest 0 [] := by
  induction l with
  | nil => intro cur rest; simp [splitScan, List.isPrefixOf]
  | cons c l ih =>
    intro cur rest
    have hl : ¬ ['\r', '\n'] <:+: l := fun hh => h (hh.trans (List.suffix_cons c l).isInfix)
    have hp : List.isPrefixOf ['\r', '\n'] (c :: (l ++ '\r' :: '\n' :: rest)) = false := by
      rw [Bool.eq_false_iff, Ne, List.isPrefixOf_iff_prefix]
      exact not_prefix_crlf c l rest h
    rw [List.cons_append, splitScan, hp, ih hl]
    simp

theorem splitScan_crlf_lines (ls : List (List Char)) :
    ∀ l : List Char, (∀ x ∈ l :: ls, ¬ ['\r', '\n'] <:+: x) →
      splitScan ['\r', '\n']
        (l ++ (ls.map (fun x => ['\r', '\n'] ++ x)).flatten ++ ['\r', '\n', '\r', '\n']) 0 [] =
      (l :: ls) ++ [[], []] := by
  induction ls with
  | nil =>
    intro l h
    have h1 := splitScan_crlf_piece l (h l (List.mem_cons_self _ _)) [] ['\r', '\n']
    have h2 := splitScan_crlf_piece [] (by decide) [] []
    simp only [List.nil_append, List.reverse_nil] at h1 h2
    simp [h1, h2, splitScan]
  | cons m ms ih =>
    intro l h
    have h1 := splitScan_crlf_piece l (h l (List.mem_cons_self _ _)) []
      (m ++ (ms.map (fun x => ['\r', '\n'] ++ x)).flatten ++ ['\r', '\n', '\r', '\n'])
    have h2 := ih m (fun x hx => h x (List.mem_cons_of_mem _ hx))
    simp only [List.nil_append, List.reverse_nil] at h1
    simp only [List.map_cons, List.flatten_cons, List.append_assoc, List.cons_append,
      List.nil_append] at h1 h2 ⊢
    rw [h1, h2]

theorem contains_crlf_iff (l : String) :
    (∃ a b : String, l = a ++ "\r\n" ++ b) ↔ ['\r', '\n'] <:+: l.data := by
  constructor
  · rintro ⟨a, b, rfl⟩
    exact ⟨a.data, b.data, by simp [String.data_append]⟩
  · rintro ⟨a, b, h⟩
    refine ⟨⟨a⟩, ⟨b⟩, String.ext ?_⟩
    rw [← h]
    simp only [String.data_append, List.append_assoc]

theorem split_join_crlf (l : String) (ls : List String)
    (h : ∀ x ∈ l :: ls, ¬ ∃ a b : String, x = a ++ "\r\n" ++ b) :
    split (join (l :: ls) "\r\n" ++ "\r\n\r\n") "\r\n" = (l :: ls) ++ ["", ""] := by
  have h2 : ∀ x ∈ l.data :: ls.map String.data, ¬ ['\r', '\n'] <:+: x := by
    intro x hx
    rcases List.mem_cons.1 hx with rfl | hx
    · rw [← contains_crlf_iff]
      exact h l (List.mem_cons_self _ _)
    · obtain ⟨y, hy, rfl⟩ := List.mem_map.1 hx
      rw [← contains_crlf_iff]
      exact h y (List.mem_cons_of_mem _ hy)
  have h3 := splitScan_crlf_lines (ls.map String.data) l.data h2
  have hd : (join (l :: ls) "\r\n" ++ "\r\n\r\n").data =
      l.data ++ ((ls.map String.data).map (fun x => ['\r', '\n'] ++ x)).flatten ++
        ['\r', '\n', '\r', '\n'] := by
    simp only [join, String.intercalate, String.data_append, intercalate_go_data, List.map_map]
    rfl
  unfold split
  rw [hd]
  show List.map String.mk (splitScan ['\r', '\n'] _ 0 []) = _
  rw [h3]
  simp only [List.map_append, List.map_cons, List.map_map, List.map_nil]
  congr 1
  congr 1
  exact List.map_id _

theorem mainLines_ok (parseURL : String → Option URL) (url : String) (options : Options)
    (u : URL) (lines : List String) (h : mainLines parseURL url options = .ok (u, lines)) :
    ∃ m : String, validateMethod options.method = .ok m ∧ parseURL url = some u ∧
      ((includes BODY_ALLOWED_METHODS options.method = false ∧
          lines = standardLines m u.pathname u.host ++ options.header.getD []) ∨
        (includes BODY_ALLOWED_METHODS options.method = true ∧
          ∃ b : String, options.body = some b ∧ b ≠ "" ∧
            lines = standardLines m u.pathname u.host ++ options.header.getD [] ++
              ["content-Length: " ++ toString b.toUTF8.size, "", b])) := by
  unfold mainLines at h
  cases hv : validateMethod options.method with
  | error e => simp [hv, bind, Except.bind] at h
  | ok m =>
    cases hb : validateBody options.body options.method with
    | error e => simp [hv, hb, bind, Except.bind] at h
    | ok x =>
      cases hp : parseURL url with
      | none => simp [hv, hb, hp, bind, Except.bind, throw, throwThe, MonadExceptOf.throw] at h
      | some v =>
        cases hbase : buildBaseProtocolText v.host v.pathname v.protocol m options.header with
        | error e => simp [hv, hb, hp, hbase, bind, Except.bind, pure, Except.pure] at h
        | ok base =>
          have hbase2 : base = standardLines m v.pathname v.host ++ options.header.getD [] := by
            unfold buildBaseProtocolText at hbase
            split at hbase
            · cases hbase
            · simp only [pure, Except.pure, Except.ok.injEq] at hbase
              rw [← hbase]
              rfl
          refine ⟨m, rfl, ?_⟩
          by_cases hi : includes BODY_ALLOWED_METHODS options.method = true
          · simp only [hv, hb, hp, hbase, hi, bind, Except.bind, pure, Except.pure,
              if_true] at h
            cases hbody : options.body with
            | none =>
              simp [hbody, putAndPostHttpExtension, checkForBody, truthy, bind, Except.bind,
                throw, throwThe, MonadExceptOf.throw] at h
            | some b =>
              by_cases hne : b = ""
              · simp [hbody, hne, putAndPostHttpExtension, checkForBody, truthy, bind,
                  Except.bind, throw, throwThe, MonadExceptOf.throw] at h
              · by_cases hct : ∃ l ∈ base, ∃ t : String, l = "Content-Type" ++ t
                · rw [hbody, putAndPostHttpExtension_ok b base hne hct] at h
                  simp only [Except.ok.injEq, Prod.mk.injEq] at h
                  obtain ⟨h1, h2⟩ := h
                  subst h1
                  refine ⟨rfl, Or.inr ⟨hi, b, rfl, hne, ?_⟩⟩
                  rw [← h2, hbase2]
                · rw [hbody, putAndPostHttpExtension_noContentType b base hne hct] at h
                  cases h
          · simp only [hv, hb, hp, hbase, hi, bind, Except.bind, pure, Except.pure] at h
            simp only [Bool.false_eq_true, if_false, Except.ok.injEq, Prod.mk.injEq] at h
            obtain ⟨h1, h2⟩ := h
            subst h1
            refine ⟨rfl, Or.inl ⟨by simpa using hi, ?_⟩⟩
            rw [← h2, hbase2]

/-- C9 as stated fails. For the GET request of the specification the split of the request
bytes on CRLF has six entries, the four lines and two empty strings, so it is not the line
sequence. For the POST request of the specification the final two entries of the split are two
empty strings, not an empty string and the body. And a custom header that itself contains CRLF
is split in two. -/
theorem split_request_not_lines :
    (mainLines exampleURL "http://example.com/foo" ⟨none, none, none⟩ =
        .ok (⟨"example.com", "/foo", "http:"⟩,
          ["GET /foo HTTP/1.1", "Host: example.com", "Accept: */*", "Connection: close"]) ∧
      (main exampleURL "http://example.com/foo" ⟨none, none, none⟩).map
          (fun call => split call.httpProtocol "\r\n") =
        .ok ["GET /foo HTTP/1.1", "Host: example.com", "Accept: */*", "Connection: close",
          "", ""]) ∧
    (mainLines exampleURL "http://example.com/foo"
          ⟨some "POST", some "\x7b\"a\":1\x7d", some ["Content-Type: application/json"]⟩ =
        .ok (⟨"example.com", "/foo", "http:"⟩,
          ["POST /foo HTTP/1.1", "Host: example.com", "Accept: */*", "Connection: close",
            "Content-Type: application/json", "content-Length: 7", "", "\x7b\"a\":1\x7d"]) ∧
      (main exampleURL "http://example.com/foo"
          ⟨some "POST", some "\x7b\"a\":1\x7d", some ["Content-Type: application/json"]⟩).map
          (fun call => split call.httpProtocol "\r\n") =
        .ok ["POST /foo HTTP/1.1", "Host: example.com", "Accept: */*", "Connection: close",
          "Content-Type: application/json", "content-Length: 7", "", "\x7b\"a\":1\x7d",
          "", ""]) ∧
    (mainLines exampleURL "http://example.com/foo" ⟨none, none, some ["X-A: 1\r\nX-B: 2"]⟩ =
        .ok (⟨"example.com", "/foo", "http:"⟩,
          ["GET /foo HTTP/1.1", "Host: example.com", "Accept: */*", "Connection: close",
            "X-A: 1\r\nX-B: 2"]) ∧
      (main exampleURL "http://example.com/foo" ⟨none, none, some ["X-A: 1\r\nX-B: 2"]⟩).map
          (fun call => split call.httpProtocol "\r\n") =
        .ok ["GET /foo HTTP/1.1", "Host: example.com", "Accept: */*", "Connection: close",
          "X-A: 1", "X-B: 2", "", ""]) := by
  decide

/-- C9, amended: for every request `main` constructs successfully in which no line of the
sequence contains CRLF, splitting the serialized request on CRLF gives the line sequence
followed by two empty strings; when the method is POST or PUT the line sequence ends with an
empty string and the body, so the split ends with an empty string, the body and two empty
strings. -/
theorem split_request_bytes (parseURL : String → Option URL) (url : String) (options : Options)
    (u : URL) (lines : List String)
    (hlines : mainLines parseURL url options = .ok (u, lines))
    (hcrlf : ∀ l ∈ lines, ¬ ∃ a b : String, l = a ++ "\r\n" ++ b) :
    ∃ call, main parseURL url options = .ok call ∧
      split call.httpProtocol "\r\n" = lines ++ ["", ""] ∧
      ((options.method = some "POST" ∨ options.method = some "PUT") →
        ∃ (pre : List String) (body : String), options.body = some body ∧
          lines = pre ++ ["", body] ∧
          split call.httpProtocol "\r\n" = pre ++ ["", body, "", ""]) := by
  obtain ⟨m, -, -, hshape⟩ := mainLines_ok parseURL url options u lines hlines
  have hsplit : split (join lines "\r\n" ++ "\r\n\r\n") "\r\n" = lines ++ ["", ""] := by
    cases lines with
    | nil =>
      rcases hshape with ⟨-, h⟩ | ⟨-, b, -, -, h⟩ <;> simp [standardLines] at h
    | cons l ls => exact split_join_crlf l ls hcrlf
  have hmain : main parseURL url options =
      .ok ⟨u.host, if (u.protocol == "http:") = true then 80 else 443,
        join lines "\r\n" ++ "\r\n\r\n"⟩ := by
    simp only [main, hlines, bind, Except.bind, pure, Except.pure]
  refine ⟨_, hmain, hsplit, ?_⟩
  intro hm
  have hi : includes BODY_ALLOWED_METHODS options.method = true := by
    rcases hm with h | h <;> rw [h] <;> decide
  rcases hshape with ⟨hf, -⟩ | ⟨-, b, hb, -, h⟩
  · rw [hi] at hf
    cases hf
  · refine ⟨standardLines m u.pathname u.host ++ options.header.getD [] ++
      ["content-Length: " ++ toString b.toUTF8.size], b, hb, ?_, ?_⟩
    · rw [h]
      simp
    · show split (join lines "\r\n" ++ "\r\n\r\n") "\r\n" = _
      rw [hsplit, h]
      simp

/-- C9 on the POST example of the specification. -/
theorem split_request_bytes_witness :
    ∃ call, main exampleURL "http://example.com/foo"
        ⟨some "POST", some "\x7b\"a\":1\x7d", some ["Content-Type: application/json"]⟩ =
          .ok call ∧
      split call.httpProtocol "\r\n" =
        ["POST /foo HTTP/1.1", "Host: example.com", "Accept: */*", "Connection: close",
          "Content-Type: application/json", "content-Length: 7", "", "\x7b\"a\":1\x7d",
          "", ""] := by
  obtain ⟨call, h1, h2, -⟩ := split_request_bytes exampleURL "http://example.com/foo"
    ⟨some "POST", some "\x7b\"a\":1\x7d", some ["Content-Type: application/json"]⟩
    ⟨"example.com", "/foo", "http:"⟩
    ["POST /foo HTTP/1.1", "Host: example.com", "Accept: */*", "Connection: close",
      "Content-Type: application/json", "content-Length: 7", "", "\x7b\"a\":1\x7d"]
    (by decide)
    (by
      intro l hl
      rw [contains_crlf_iff]
      revert l
      decide)
  exact ⟨call, h1, h2⟩

/-! ## The response handler -/

/-- C10 fails on the code: `split` cuts the chunk at every occurrence of CRLF CRLF and
`handleData` keeps the first two pieces only. On a chunk whose body contains CRLF CRLF the text
logged at info level is the piece between the first and the second delimiter, not everything
after the first delimiter. -/
theorem handleData_drops_after_second_delimiter :
    handleData "HTTP/1.1 200 OK\r\nContent-Length: 8\r\n\r\nab\r\n\r\ncd" =
        { debug := some "HTTP/1.1 200 OK\r\nContent-Length: 8", info := some "ab" } ∧
      (handleData "HTTP/1.1 200 OK\r\nContent-Length: 8\r\n\r\nab\r\n\r\ncd").info ≠
        some "ab\r\n\r\ncd" := by
  decide

/-! ## Port, method and the shape of a successful request -/

theorem main_ok (parseURL : String → Option URL) (url : String) (options : Options)
    (call : SocketCall) (h : main parseURL url options = .ok call) :
    ∃ (u : URL) (lines : List String), mainLines parseURL url options = .ok (u, lines) ∧
      call = ⟨u.host, if u.protocol = "http:" then 80 else 443,
        String.intercalate "\r\n" lines ++ "\r\n\r\n"⟩ := by
  unfold main at h
  cases hl : mainLines parseURL url options with
  | error e => simp [hl, bind, Except.bind] at h
  | ok r =>
    obtain ⟨u, lines⟩ := r
    simp only [hl, bind, Except.bind, pure, Except.pure, Except.ok.injEq] at h
    refine ⟨u, lines, rfl, ?_⟩
    rw [← h]
    simp [join]

theorem buildBaseProtocolText_error_of_scheme (host pathname protocol method : String)
    (headers : Option (List String)) (h : ¬ (protocol = "http:" ∨ protocol = "https:")) :
    buildBaseProtocolText host pathname protocol method headers =
      .error JSError.UnrecognisableProtocol := by
  have hc : protocol ∉ ACCEPTED_PROTOCOLS := by
    simp only [not_or] at h
    simp [ACCEPTED_PROTOCOLS, h]
  simp [buildBaseProtocolText, hc, throw, throwThe, MonadExceptOf.throw]

theorem mainLines_ok_protocol (parseURL : String → Option URL) (url : String)
    (options : Options) (u : URL) (lines : List String)
    (h : mainLines parseURL url options = .ok (u, lines)) :
    u.protocol = "http:" ∨ u.protocol = "https:" := by
  obtain ⟨m, hv, hp, -⟩ := mainLines_ok parseURL url options u lines h
  by_contra hno
  have hb := (buildBaseProtocolText_error_of_scheme u.host u.pathname u.protocol m
    options.header hno)
  unfold mainLines at h
  cases hvb : validateBody options.body options.method with
  | error e => simp [hv, hvb, bind, Except.bind] at h
  | ok x => simp [hv, hvb, hp, hb, bind, Except.bind, pure, Except.pure] at h

/-- C12: for every request `main` hands to the connection, the port is 80 when the protocol of
the URL is `http:` and 443 when it is `https:`; no other case reaches the connection, so the
port is one of the two whatever host, path, method, body and headers are. -/
theorem main_port (parseURL : String → Option URL) (url : String) (options : Options)
    (call : SocketCall) (h : main parseURL url options = .ok call) :
    ∃ u : URL, parseURL url = some u ∧ call.host = u.host ∧
      ((u.protocol = "http:" ∧ call.port = 80) ∨ (u.protocol = "https:" ∧ call.port = 443)) := by
  obtain ⟨u, lines, hl, rfl⟩ := main_ok parseURL url options call h
  obtain ⟨m, -, hp, -⟩ := mainLines_ok parseURL url options u lines hl
  refine ⟨u, hp, rfl, ?_⟩
  rcases mainLines_ok_protocol parseURL url options u lines hl with hs | hs
  · exact Or.inl ⟨hs, by simp [hs]⟩
  · exact Or.inr ⟨hs, by simp [hs]⟩

/-- C12 on two examples: an http URL gives port 80, an https URL port 443. -/
theorem main_port_witness :
    (∃ call, main exampleURL "http://example.com/foo" ⟨none, none, none⟩ = .ok call ∧
        call.port = 80) ∧
      (∃ u : URL, exampleURL "https://example.com/foo" = some u ∧ "example.com" = u.host ∧
        ((u.protocol = "http:" ∧ 443 = 80) ∨ (u.protocol = "https:" ∧ 443 = 443))) :=
  ⟨⟨_, rfl, rfl⟩,
    main_port exampleURL "https://example.com/foo" ⟨some "DELETE", none, none⟩
      ⟨"example.com", 443,
        "DELETE /foo HTTP/1.1\r\nHost: example.com\r\nAccept: */*\r\nConnection: close\r\n\r\n"⟩
      (by decide)⟩

theorem validateBody_fails (body method : Option String) :
    validateBody body method = .error JSError.BodyNotAllowedMethod ↔
      (∃ b : String, body = some b ∧ b ≠ "") ∧ method ≠ some "POST" ∧ method ≠ some "PUT" := by
  have ht : truthy body = true ↔ ∃ b : String, body = some b ∧ b ≠ "" := by
    cases body <;> simp [truthy]
  have hi : includes BODY_ALLOWED_METHODS method = true ↔
      (method = some "POST" ∨ method = some "PUT") := by
    cases method <;> simp [includes, BODY_ALLOWED_METHODS]
  unfold validateBody
  by_cases h1 : truthy body = true <;> by_cases h2 : includes BODY_ALLOWED_METHODS method = true
  all_goals
    have h1' := h1
    have h2' := h2
    rw [ht] at h1'
    rw [hi] at h2'
    simp only [h1, h2]
    simp [h1', throw, throwThe, MonadExceptOf.throw, pure, Except.pure]
    try tauto

theorem validateMethod_ok_cases (method : Option String) (m : String)
    (h : validateMethod method = .ok m) :
    m ∈ ACCEPTED_METHODS ∧
      ((method = some m ∧ m ≠ "") ∨ ((method = none ∨ method = some "") ∧ m = "GET")) := by
  unfold validateMethod at h
  by_cases hc : orElse method "GET" ∈ ACCEPTED_METHODS
  · simp [hc, pure, Except.pure] at h
    subst h
    refine ⟨hc, ?_⟩
    cases method with
    | none => exact Or.inr ⟨Or.inl rfl, rfl⟩
    | some s =>
      by_cases hs : s = ""
      · subst hs
        exact Or.inr ⟨Or.inr rfl, rfl⟩
      · have : orElse (some s) "GET" = s := by simp [orElse, hs]
        rw [this]
        exact Or.inl ⟨rfl, hs⟩
  · simp [hc, throw, throwThe, MonadExceptOf.throw] at h

theorem normalise_ne_empty (m : String) (h : normalise m ∈ ["GET", "DELETE", "PUT", "POST"]) :
    m ≠ "" := by
  rintro rfl
  revert h
  decide

/-- C13: `validateMethod` matches exactly. Each of GET, DELETE, PUT, POST is returned unchanged,
and every other string that becomes one of them once surrounding whitespace is removed and
letters are put in upper case is rejected with `BadHttpMethod`. -/
theorem validateMethod_exact_match (method : String) :
    (method ∈ ["GET", "DELETE", "PUT", "POST"] → validateMethod (some method) = .ok method) ∧
      (method ∉ ["GET", "DELETE", "PUT", "POST"] →
        normalise method ∈ ["GET", "DELETE", "PUT", "POST"] →
        validateMethod (some method) = .error JSError.BadHttpMethod) := by
  refine ⟨fun h => validateMethod_accepted method h, fun hm hn => ?_⟩
  have hne := normalise_ne_empty method hn
  simp only [List.mem_cons, List.mem_singleton, List.not_mem_nil, or_false, not_or] at hm
  simp [validateMethod, orElse, hne, ACCEPTED_METHODS, hm, throw, throwThe, MonadExceptOf.throw]

/-- C13 on the examples of the claim: "get", "Post" and " GET" are rejected, "GET" is returned
as it is. -/
theorem validateMethod_exact_match_witness :
    validateMethod (some "get") = .error JSError.BadHttpMethod ∧
      validateMethod (some "Post") = .error JSError.BadHttpMethod ∧
      validateMethod (some " GET") = .error JSError.BadHttpMethod ∧
      validateMethod (some "GET") = .ok "GET" :=
  ⟨(validateMethod_exact_match "get").2 (by decide) (by decide),
    (validateMethod_exact_match "Post").2 (by decide) (by decide),
    (validateMethod_exact_match " GET").2 (by decide) (by decide),
    (validateMethod_exact_match "GET").1 (by decide)⟩

/-- C14: every request `main` constructs successfully has a request line whose method is one of
GET, DELETE, PUT, POST. When the method is POST or PUT a non-empty body was supplied and the
lines are the standard lines, the custom headers and the body section (the `content-Length`
line, an empty line, the body); otherwise no body was supplied, or an empty one, and the lines
are the standard lines and the custom headers only. So the body section is there exactly for
POST and PUT, and a non-empty body is never left out of a successful request. -/
theorem main_request_invariant (parseURL : String → Option URL) (url : String)
    (options : Options) (call : SocketCall) (h : main parseURL url options = .ok call) :
    ∃ (m : String) (u : URL), parseURL url = some u ∧
      m ∈ ["GET", "DELETE", "PUT", "POST"] ∧
      (((m = "POST" ∨ m = "PUT") ∧ options.method = some m ∧
          ∃ b : String, options.body = some b ∧ b ≠ "" ∧
            call.httpProtocol = String.intercalate "\r\n"
              ([m ++ " " ++ u.pathname ++ " HTTP/1.1", "Host: " ++ u.host, "Accept: */*",
                "Connection: close"] ++ options.header.getD [] ++
                ["content-Length: " ++ toString b.toUTF8.size, "", b]) ++ "\r\n\r\n") ∨
        (m ≠ "POST" ∧ m ≠ "PUT" ∧ (options.body = none ∨ options.body = some "") ∧
          call.httpProtocol = String.intercalate "\r\n"
            ([m ++ " " ++ u.pathname ++ " HTTP/1.1", "Host: " ++ u.host, "Accept: */*",
              "Connection: close"] ++ options.header.getD []) ++ "\r\n\r\n")) := by
  obtain ⟨u, lines, hl, rfl⟩ := main_ok parseURL url options call h
  obtain ⟨m, hv, hp, hshape⟩ := mainLines_ok parseURL url options u lines hl
  obtain ⟨hmem, hcases⟩ := validateMethod_ok_cases options.method m hv
  refine ⟨m, u, hp, hmem, ?_⟩
  rcases hshape with ⟨hi, hlines⟩ | ⟨hi, b, hb, hne, hlines⟩
  · right
    have hm : m ≠ "POST" ∧ m ≠ "PUT" := by
      rcases hcases with ⟨hmm, -⟩ | ⟨-, rfl⟩
      · rw [hmm] at hi
        constructor <;> rintro rfl <;> revert hi <;> decide
      · decide
    have hbody : options.body = none ∨ options.body = some "" := by
      have hvb : validateBody options.body options.method ≠
          .error JSError.BodyNotAllowedMethod := by
        intro hvb
        unfold mainLines at hl
        simp [hv, hvb, bind, Except.bind] at hl
      have hiff := (validateBody_fails options.body options.method).not.1 hvb
      cases hbo : options.body with
      | none => exact Or.inl rfl
      | some b =>
        right
        by_contra hb
        apply hiff
        refine ⟨⟨b, hbo, fun hbe => hb (by rw [hbe])⟩, ?_⟩
        cases hmo : options.method with
        | none => simp
        | some s =>
          rw [hmo] at hi
          constructor <;> intro hs <;> rw [Option.some.injEq] at hs <;> subst hs <;>
            revert hi <;> decide
    exact ⟨hm.1, hm.2, hbody, by rw [hlines]; rfl⟩
  · left
    have hmm : options.method = some m := by
      rcases hcases with ⟨hmm, -⟩ | ⟨hno, -⟩
      · exact hmm
      · rcases hno with hno | hno <;> rw [hno] at hi <;> exact absurd hi (by decide)
    have hm : m = "POST" ∨ m = "PUT" := by
      rw [hmm] at hi
      simpa [includes, BODY_ALLOWED_METHODS] using hi
    exact ⟨hm, hmm, b, hb, hne, by rw [hlines]; rfl⟩

/-- C14 on the POST example of the specification. -/
theorem main_request_invariant_witness :
    ∃ (m : String) (u : URL), exampleURL "http://example.com/foo" = some u ∧
      m ∈ ["GET", "DELETE", "PUT", "POST"] ∧ (m = "POST" ∨ m = "PUT") := by
  obtain ⟨m, u, hu, hm, hcase⟩ := main_request_invariant exampleURL "http://example.com/foo"
    ⟨some "POST", some "\x7b\"a\":1\x7d", some ["Content-Type: application/json"]⟩
    ⟨"example.com", 80,
      "POST /foo HTTP/1.1\r\nHost: example.com\r\nAccept: */*\r\nConnection: close\r\nContent-Type: application/json\r\ncontent-Length: 7\r\n\r\n\x7b\"a\":1\x7d\r\n\r\n"⟩
    (by decide)
  refine ⟨m, u, hu, hm, ?_⟩
  rcases hcase with ⟨hpp, -⟩ | ⟨-, -, hb, -⟩
  · exact hpp
  · simp at hb

/-! ## The raw and the validated method -/

theorem raw_method_agrees (method : Option String) (m : String)
    (h : validateMethod method = .ok m) :
    includes BODY_ALLOWED_METHODS method = includes BODY_ALLOWED_METHODS (some m) := by
  rcases (validateMethod_ok_cases method m h).2 with ⟨hm, -⟩ | ⟨hm, rfl⟩
  · rw [hm]
  · rcases hm with rfl | rfl <;> decide

/-- C18: `main` gives the raw method to `validateBody` and to the POST/PUT test. Whenever
`validateMethod` succeeds with `m`, `validateBody` has the same outcome on the raw method as on
`m`, and the body extension is applied exactly when `m` is POST or PUT; so `main` equals the
variant that uses the validated method, on every input. In particular an absent method with a
non-empty body fails with `BodyNotAllowedMethod`. -/
theorem main_raw_method_refines (parseURL : String → Option URL) (url : String)
    (options : Options) :
    (∀ m : String, validateMethod options.method = .ok m →
        validateBody options.body options.method = validateBody options.body (some m) ∧
        (includes BODY_ALLOWED_METHODS options.method = true ↔ (m = "POST" ∨ m = "PUT"))) ∧
      main parseURL url options = mainValidated parseURL url options ∧
      (∀ b : String, b ≠ "" →
        main parseURL url ⟨none, some b, options.header⟩ =
          .error JSError.BodyNotAllowedMethod) := by
  refine ⟨?_, ?_, ?_⟩
  · intro m hm
    have hi := raw_method_agrees options.method m hm
    refine ⟨by simp only [validateBody, hi], ?_⟩
    rw [hi]
    simp [includes, BODY_ALLOWED_METHODS]
  · have hl : mainLines parseURL url options = mainLinesValidated parseURL url options := by
      unfold mainLines mainLinesValidated
      cases hv : validateMethod options.method with
      | error e => rfl
      | ok m =>
        have hi := raw_method_agrees options.method m hv
        simp only [validateBody, hi, bind, Except.bind]
    simp only [main, mainValidated, hl]
  · intro b hb
    simp [main, mainLines, validateMethod, validateBody, orElse, truthy, includes, hb,
      ACCEPTED_METHODS, bind, Except.bind, pure, Except.pure, throw, throwThe,
      MonadExceptOf.throw]

/-- C18 on an example: no method and the body "x" on a well-formed http URL fails with
`BodyNotAllowedMethod`, as does the variant with the validated method. -/
theorem main_raw_method_refines_witness :
    main exampleURL "http://example.com/foo" ⟨none, some "x", none⟩ =
        .error JSError.BodyNotAllowedMethod ∧
      mainValidated exampleURL "http://example.com/foo" ⟨none, some "x", none⟩ =
        .error JSError.BodyNotAllowedMethod := by
  have h := main_raw_method_refines exampleURL "http://example.com/foo" ⟨none, some "x", none⟩
  exact ⟨h.2.2 "x" (by decide), h.2.1 ▸ h.2.2 "x" (by decide)⟩

/-! ## Error precedence -/

theorem validateMethod_error_iff (method : Option String) :
    validateMethod method = .error JSError.BadHttpMethod ↔
      ∃ s : String, method = some s ∧ s ≠ "" ∧ s ∉ ["GET", "DELETE", "PUT", "POST"] := by
  cases method with
  | none => simp [validateMethod, orElse, ACCEPTED_METHODS, pure, Except.pure]
  | some s =>
    by_cases hs : s = ""
    · subst hs
      simp [validateMethod, orElse, ACCEPTED_METHODS, pure, Except.pure]
    · by_cases hm : s ∈ ["GET", "DELETE", "PUT", "POST"]
      · rw [validateMethod_accepted s hm]
        constructor
        · intro h
          cases h
        · rintro ⟨t, ht, -, hn⟩
          cases ht
          exact absurd hm hn
      · have hm2 := hm
        simp only [List.mem_cons, List.mem_singleton, List.not_mem_nil, or_false, not_or] at hm2
        simp [validateMethod, orElse, hs, ACCEPTED_METHODS, hm2, throw, throwThe,
          MonadExceptOf.throw]

theorem validateMethod_ok_or_error (method : Option String) :
    validateMethod method = .error JSError.BadHttpMethod ∨
      ∃ m : String, validateMethod method = .ok m := by
  by_cases hc : orElse method "GET" ∈ ACCEPTED_METHODS
  · exact Or.inr ⟨orElse method "GET", by simp [validateMethod, hc, pure, Except.pure]⟩
  · exact Or.inl (by simp [validateMethod, hc, throw, throwThe, MonadExceptOf.throw])

theorem validateBody_ok_or_error (body method : Option String) :
    validateBody body method = .error JSError.BodyNotAllowedMethod ∨
      validateBody body method = .ok () := by
  unfold validateBody
  split
  · exact Or.inl rfl
  · exact Or.inr rfl

/-- The value of `main` in each case of the order in which its checks run. -/
theorem main_cascade (parseURL : String → Option URL) (url host pathname protocol : String)
    (method body : Option String) (header : Option (List String))
    (hurl : parseURL url = some ⟨host, pathname, protocol⟩) :
    let B1 := ∃ s : String, method = some s ∧ s ≠ "" ∧ s ∉ ["GET", "DELETE", "PUT", "POST"]
    let B2 := (∃ b : String, body = some b ∧ b ≠ "") ∧
      method ≠ some "POST" ∧ method ≠ some "PUT"
    let B3 := ¬ (protocol = "http:" ∨ protocol = "https:")
    let B4 := (method = some "POST" ∨ method = some "PUT") ∧ (body = none ∨ body = some "")
    let B5 := (method = some "POST" ∨ method = some "PUT") ∧
      ¬ ∃ h ∈ header.getD [], ∃ t : String, h = "Content-Type" ++ t
    (B1 → main parseURL url ⟨method, body, header⟩ = .error JSError.BadHttpMethod) ∧
    (¬ B1 → B2 → main parseURL url ⟨method, body, header⟩ =
      .error JSError.BodyNotAllowedMethod) ∧
    (¬ B1 → ¬ B2 → B3 → main parseURL url ⟨method, body, header⟩ =
      .error JSError.UnrecognisableProtocol) ∧
    (¬ B1 → ¬ B2 → ¬ B3 → B4 → main parseURL url ⟨method, body, header⟩ =
      .error JSError.NoBodyError) ∧
    (¬ B1 → ¬ B2 → ¬ B3 → ¬ B4 → B5 → main parseURL url ⟨method, body, header⟩ =
      .error JSError.NoContentTypeHeader) ∧
    (¬ B1 → ¬ B2 → ¬ B3 → ¬ B4 → ¬ B5 →
      ∃ call, main parseURL url ⟨method, body, header⟩ = .ok call) := by
  intro B1 B2 B3 B4 B5
  have e1 : B1 → main parseURL url ⟨method, body, header⟩ = .error JSError.BadHttpMethod := by
    intro h
    have hv := (validateMethod_error_iff method).2 h
    simp [main, mainLines, hv, bind, Except.bind]
  have e2 : ¬ B1 → B2 → main parseURL url ⟨method, body, header⟩ =
      .error JSError.BodyNotAllowedMethod := by
    intro h1 h2
    rcases validateMethod_ok_or_error method with hv | ⟨m, hv⟩
    · exact absurd ((validateMethod_error_iff method).1 hv) h1
    · have hb := (validateBody_fails body method).2 h2
      simp [main, mainLines, hv, hb, bind, Except.bind]
  have e3 : ¬ B1 → ¬ B2 → B3 → main parseURL url ⟨method, body, header⟩ =
      .error JSError.UnrecognisableProtocol := by
    intro h1 h2 h3
    rcases validateMethod_ok_or_error method with hv | ⟨m, hv⟩
    · exact absurd ((validateMethod_error_iff method).1 hv) h1
    · rcases validateBody_ok_or_error body method with hb | hb
      · exact absurd ((validateBody_fails body method).1 hb) h2
      · have hs := buildBaseProtocolText_error_of_scheme host pathname protocol m header h3
        simp [main, mainLines, hv, hb, hurl, hs, bind, Except.bind, pure, Except.pure]
  have hpost : ∀ s : String, method = some s → (s = "POST" ∨ s = "PUT") → ¬ B3 →
      main parseURL url ⟨method, body, header⟩ =
        (putAndPostHttpExtension body (standardLines s pathname host ++ header.getD [])).bind
          (fun lines => .ok ⟨host, if protocol = "http:" then 80 else 443,
            String.intercalate "\r\n" lines ++ "\r\n\r\n"⟩) := by
    intro s hs hpp h3
    subst hs
    have hl := mainLines_body_method parseURL url host pathname protocol s body header hurl
      (not_not.1 h3) hpp
    cases hx : putAndPostHttpExtension body (standardLines s pathname host ++ header.getD [])
      <;> simp [main, hl, hx, Except.map, Except.bind, bind, pure, Except.pure, join]
  refine ⟨e1, e2, e3, ?_, ?_, ?_⟩
  · intro _ _ h3 h4
    obtain ⟨hm, hb⟩ := h4
    have hext : ∀ lines, putAndPostHttpExtension body lines = .error JSError.NoBodyError := by
      intro lines
      rcases hb with rfl | rfl <;>
        simp [putAndPostHttpExtension, checkForBody, truthy, bind, Except.bind, throw, throwThe,
          MonadExceptOf.throw]
    rcases hm with hm | hm <;> rw [hpost _ hm (by simp) h3, hext] <;> rfl
  · intro _ _ h3 h4 h5
    obtain ⟨hm, hct⟩ := h5
    have hbody : ∃ b : String, body = some b ∧ b ≠ "" := by
      cases hbo : body with
      | none => exact absurd ⟨hm, Or.inl hbo⟩ h4
      | some b =>
        refine ⟨b, rfl, ?_⟩
        rintro rfl
        exact h4 ⟨hm, Or.inr hbo⟩
    obtain ⟨b, rfl, hb⟩ := hbody
    have key : ∀ s : String, (s = "POST" ∨ s = "PUT") →
        putAndPostHttpExtension (some b) (standardLines s pathname host ++ header.getD []) =
          .error JSError.NoContentTypeHeader := by
      intro s hs
      apply putAndPostHttpExtension_noContentType b _ hb
      rintro ⟨l, hl, ht⟩
      rcases List.mem_append.1 hl with hl | hl
      · exact standardLines_no_contentType s pathname host hs l hl ht
      · exact hct ⟨l, hl, ht⟩
    rcases hm with hm | hm <;> rw [hpost _ hm (by simp) h3, key _ (by simp)] <;> rfl
  · intro h1 h2 h3 h4 h5
    rcases validateMethod_ok_or_error method with hv | ⟨m, hv⟩
    · exact absurd ((validateMethod_error_iff method).1 hv) h1
    rcases validateBody_ok_or_error body method with hvb | hvb
    · exact absurd ((validateBody_fails body method).1 hvb) h2
    by_cases hm : method = some "POST" ∨ method = some "PUT"
    · have hbody : ∃ b : String, body = some b ∧ b ≠ "" := by
        cases hbo : body with
        | none => exact absurd ⟨hm, Or.inl hbo⟩ h4
        | some b =>
          refine ⟨b, rfl, ?_⟩
          rintro rfl
          exact h4 ⟨hm, Or.inr hbo⟩
      obtain ⟨b, rfl, hb⟩ := hbody
      have hct : ∃ h ∈ header.getD [], ∃ t : String, h = "Content-Type" ++ t := by
        by_contra hno
        exact h5 ⟨hm, hno⟩
      have key : ∀ s : String,
          ∃ lines, putAndPostHttpExtension (some b)
            (standardLines s pathname host ++ header.getD []) = .ok lines := by
        intro s
        obtain ⟨h, hh, ht⟩ := hct
        exact ⟨_, putAndPostHttpExtension_ok b _ hb ⟨h, List.mem_append_right _ hh, ht⟩⟩
      rcases hm with hm | hm
      · obtain ⟨lines, hl⟩ := key "POST"
        rw [hpost _ hm (by simp) h3, hl]
        exact ⟨_, rfl⟩
      · obtain ⟨lines, hl⟩ := key "PUT"
        rw [hpost _ hm (by simp) h3, hl]
        exact ⟨_, rfl⟩
    · have hi : includes BODY_ALLOWED_METHODS method = false := by
        cases method with
        | none => rfl
        | some s =>
          simp only [Option.some.injEq, not_or] at hm
          simp [includes, BODY_ALLOWED_METHODS, hm]
      have hs : protocol ∈ ACCEPTED_PROTOCOLS := by
        rcases not_not.1 h3 with rfl | rfl <;> decide
      cases hmain : main parseURL url ⟨method, body, header⟩ with
      | ok call => exact ⟨call, rfl⟩
      | error e =>
        simp [main, mainLines, hv, hvb, hurl, hi, buildBaseProtocolText, hs, bind, Except.bind,
          pure, Except.pure] at hmain

/-- C16 as stated fails when the URL does not parse. For PUT with no body on the text
"not a url" the method is accepted, `validateBody` returns and the body check is the first of
the five that fails, so the claim gives `NoBodyError`; `main` raises the `TypeError` of
`new URL`, which runs after `validateBody` and before the protocol is looked at. -/
theorem main_error_precedence_unparsable_url :
    exampleURL "not a url" = none ∧
      validateMethod (some "PUT") = .ok "PUT" ∧
      validateBody none (some "PUT") = .ok () ∧
      checkForBody none = .error JSError.NoBodyError ∧
      main exampleURL "not a url" ⟨some "PUT", none, none⟩ = .error JSError.TypeError ∧
      main exampleURL "not a url" ⟨some "PUT", none, none⟩ ≠ .error JSError.NoBodyError := by
  decide

/-- C16, amended: when the URL parses, the error `main` raises is the first failing check in
the order `BadHttpMethod`, `BodyNotAllowedMethod`, `UnrecognisableProtocol`, `NoBodyError`,
`NoContentTypeHeader`: each error is raised exactly when its own check fails and none of the
checks before it does. The checks are: a supplied non-empty method outside the four accepted
ones; a non-empty body with a method other than POST and PUT; a protocol other than `http:` and
`https:`; POST or PUT with an absent or empty body; POST or PUT with no custom header starting
with `Content-Type`. -/
theorem main_error_precedence (parseURL : String → Option URL)
    (url host pathname protocol : String) (method body : Option String)
    (header : Option (List String))
    (hurl : parseURL url = some ⟨host, pathname, protocol⟩) :
    let B1 := ∃ s : String, method = some s ∧ s ≠ "" ∧ s ∉ ["GET", "DELETE", "PUT", "POST"]
    let B2 := (∃ b : String, body = some b ∧ b ≠ "") ∧
      method ≠ some "POST" ∧ method ≠ some "PUT"
    let B3 := ¬ (protocol = "http:" ∨ protocol = "https:")
    let B4 := (method = some "POST" ∨ method = some "PUT") ∧ (body = none ∨ body = some "")
    let B5 := (method = some "POST" ∨ method = some "PUT") ∧
      ¬ ∃ h ∈ header.getD [], ∃ t : String, h = "Content-Type" ++ t
    (main parseURL url ⟨method, body, header⟩ = .error JSError.BadHttpMethod ↔ B1) ∧
    (main parseURL url ⟨method, body, header⟩ = .error JSError.BodyNotAllowedMethod ↔
      ¬ B1 ∧ B2) ∧
    (main parseURL url ⟨method, body, header⟩ = .error JSError.UnrecognisableProtocol ↔
      ¬ B1 ∧ ¬ B2 ∧ B3) ∧
    (main parseURL url ⟨method, body, header⟩ = .error JSError.NoBodyError ↔
      ¬ B1 ∧ ¬ B2 ∧ ¬ B3 ∧ B4) ∧
    (main parseURL url ⟨method, body, header⟩ = .error JSError.NoContentTypeHeader ↔
      ¬ B1 ∧ ¬ B2 ∧ ¬ B3 ∧ ¬ B4 ∧ B5) := by
  intro B1 B2 B3 B4 B5
  obtain ⟨c1, c2, c3, c4, c5, c6⟩ :=
    main_cascade parseURL url host pathname protocol method body header hurl
  change (B1 → _) at c1
  change (¬ B1 → B2 → _) at c2
  change (¬ B1 → ¬ B2 → B3 → _) at c3
  change (¬ B1 → ¬ B2 → ¬ B3 → B4 → _) at c4
  change (¬ B1 → ¬ B2 → ¬ B3 → ¬ B4 → B5 → _) at c5
  change (¬ B1 → ¬ B2 → ¬ B3 → ¬ B4 → ¬ B5 → _) at c6
  clear_value B1 B2 B3 B4 B5
  by_cases h1 : B1
  · rw [c1 h1]
    simp [h1]
  by_cases h2 : B2
  · rw [c2 h1 h2]
    simp [h1, h2]
  by_cases h3 : B3
  · rw [c3 h1 h2 h3]
    simp [h1, h2, h3]
  by_cases h4 : B4
  · rw [c4 h1 h2 h3 h4]
    simp [h1, h2, h3, h4]
  by_cases h5 : B5
  · rw [c5 h1 h2 h3 h4 h5]
    simp [h1, h2, h3, h4, h5]
  · obtain ⟨call, hcall⟩ := c6 h1 h2 h3 h4 h5
    rw [hcall]
    simp [h1, h2, h3, h4, h5]

/-- C16 on the examples of the claim, with an ftp URL: an unsupported method raises
`BadHttpMethod`, and GET with a body raises `BodyNotAllowedMethod`, before the scheme is
looked at. -/
theorem main_error_precedence_witness :
    main exampleURL "ftp://example.com/foo" ⟨some "PATCH", some "x", none⟩ =
        .error JSError.BadHttpMethod ∧
      main exampleURL "ftp://example.com/foo" ⟨some "GET", some "x", none⟩ =
        .error JSError.BodyNotAllowedMethod :=
  ⟨(main_error_precedence exampleURL "ftp://example.com/foo" "example.com" "/foo" "ftp:"
      (some "PATCH") (some "x") none (by decide)).1.2 ⟨"PATCH", rfl, by decide, by decide⟩,
    (main_error_precedence exampleURL "ftp://example.com/foo" "example.com" "/foo" "ftp:"
      (some "GET") (some "x") none (by decide)).2.1.2
      ⟨by
        rintro ⟨s, hs, -, hn⟩
        cases hs
        exact hn (by decide),
        ⟨"x", rfl, by decide⟩, by decide, by decide⟩⟩

/-! ## The bytes after the first blank line -/

theorem digitChar_not_crlf (n : Nat) (h : n < 10) :
    Nat.digitChar n ≠ '\r' ∧ Nat.digitChar n ≠ '\n' := by
  interval_cases n <;> decide

theorem toDigitsCore_not_crlf (fuel : Nat) :
    ∀ (n : Nat) (ds : List Char), (∀ c ∈ ds, c ≠ '\r' ∧ c ≠ '\n') →
      ∀ c ∈ Nat.toDigitsCore 10 fuel n ds, c ≠ '\r' ∧ c ≠ '\n' := by
  induction fuel with
  | zero => intro n ds h; simpa [Nat.toDigitsCore] using h
  | succ k ih =>
    intro n ds h
    have hd : ∀ c ∈ Nat.digitChar (n % 10) :: ds, c ≠ '\r' ∧ c ≠ '\n' := by
      intro c hc
      rcases List.mem_cons.1 hc with rfl | hc
      · exact digitChar_not_crlf _ (Nat.mod_lt _ (by decide))
      · exact h c hc
    unfold Nat.toDigitsCore
    by_cases h0 : n / 10 = 0
    · simpa [h0] using hd
    · simp only [h0, if_false]
      exact ih _ _ hd

theorem toString_not_crlf (n : Nat) : ∀ c ∈ (toString n).data, c ≠ '\r' ∧ c ≠ '\n' := by
  show ∀ c ∈ (Nat.toDigits 10 n), c ≠ '\r' ∧ c ≠ '\n'
  exact toDigitsCore_not_crlf _ _ _ (by simp)

theorem not_infix_of_plain (l t : List Char) (hl : ∀ c ∈ l, c ≠ '\r' ∧ c ≠ '\n')
    (ht : ¬ ['\n', '\r', '\n'] <:+: t) : ¬ ['\n', '\r', '\n'] <:+: l ++ t := by
  induction l with
  | nil => simpa using ht
  | cons c l ih =>
    rw [List.cons_append, List.infix_cons_iff]
    rintro (hp | hi)
    · rw [List.cons_prefix_cons] at hp
      exact (hl c (List.mem_cons_self _ _)).2 hp.1.symm
    · exact ih (fun d hd => hl d (List.mem_cons_of_mem _ hd)) hi

theorem not_infix_crlf_cons (g : Char) (t : List Char) (hg : g ≠ '\r' ∧ g ≠ '\n')
    (ht : ¬ ['\n', '\r', '\n'] <:+: g :: t) :
    ¬ ['\n', '\r', '\n'] <:+: '\r' :: '\n' :: g :: t := by
  rw [List.infix_cons_iff, List.infix_cons_iff]
  rintro (hp | hp | hi)
  · rw [List.cons_prefix_cons] at hp
    exact absurd hp.1 (by decide)
  · rw [List.cons_prefix_cons, List.cons_prefix_cons] at hp
    exact hg.1 hp.2.1.symm
  · exact ht hi

/-- Lines without CR and LF, none of them empty, joined with CRLF and followed by CR LF CR: the
text contains no LF CR LF and starts with a character of the first line. -/
theorem joined_plain_lines (ls : List (List Char)) :
    ∀ l : List Char, (∀ x ∈ l :: ls, x ≠ [] ∧ ∀ c ∈ x, c ≠ '\r' ∧ c ≠ '\n') →
      (¬ ['\n', '\r', '\n'] <:+:
          l ++ (ls.map (fun x => ['\r', '\n'] ++ x)).flatten ++ ['\r', '\n', '\r']) ∧
        ∃ (g : Char) (t : List Char), (g ≠ '\r' ∧ g ≠ '\n') ∧
          l ++ (ls.map (fun x => ['\r', '\n'] ++ x)).flatten ++ ['\r', '\n', '\r'] = g :: t := by
  induction ls with
  | nil =>
    intro l h
    obtain ⟨hne, hplain⟩ := h l (List.mem_cons_self _ _)
    refine ⟨?_, ?_⟩
    · simp only [List.map_nil, List.flatten_nil, List.append_nil]
      exact not_infix_of_plain l _ hplain (by decide)
    · cases l with
      | nil => exact absurd rfl hne
      | cons g t => exact ⟨g, _, hplain g (List.mem_cons_self _ _), rfl⟩
  | cons m ms ih =>
    intro l h
    obtain ⟨hne, hplain⟩ := h l (List.mem_cons_self _ _)
    obtain ⟨hno, g, t, hg, hgt⟩ := ih m (fun x hx => h x (List.mem_cons_of_mem _ hx))
    have heq : l ++ ((m :: ms).map (fun x => ['\r', '\n'] ++ x)).flatten ++ ['\r', '\n', '\r'] =
        l ++ ('\r' :: '\n' ::
          (m ++ (ms.map (fun x => ['\r', '\n'] ++ x)).flatten ++ ['\r', '\n', '\r'])) := by
      simp [List.append_assoc]
    rw [heq]
    refine ⟨?_, ?_⟩
    · apply not_infix_of_plain l _ hplain
      rw [hgt] at hno ⊢
      exact not_infix_crlf_cons g t hg hno
    · cases l with
      | nil => exact absurd rfl hne
      | cons g t => exact ⟨g, _, hplain g (List.mem_cons_self _ _), rfl⟩

theorem intercalate_cons_data (sep l : String) (ls : List String) :
    (String.intercalate sep (l :: ls)).data =
      l.data ++ (ls.map (fun x => sep.data ++ x.data)).flatten := by
  simp only [String.intercalate, intercalate_go_data]

theorem plain_append (a b : String) (ha : ∀ c ∈ a.data, c ≠ '\r' ∧ c ≠ '\n')
    (hb : ∀ c ∈ b.data, c ≠ '\r' ∧ c ≠ '\n') : ∀ c ∈ (a ++ b).data, c ≠ '\r' ∧ c ≠ '\n' := by
  intro c hc
  rw [String.data_append, List.mem_append] at hc
  rcases hc with hc | hc
  · exact ha c hc
  · exact hb c hc

theorem append_data_ne_nil (a b : String) (ha : a ≠ "") : (a ++ b).data ≠ [] := by
  intro h
  rw [String.data_append, List.append_eq_nil] at h
  exact ha (String.ext h.1)

/-- The lines before the empty line of a POST or PUT request are not empty and contain no CR or
LF when host, pathname and custom headers are so. -/
theorem request_lines_plain (method pathname host : String) (headers : List String) (n : Nat)
    (hmethod : method = "POST" ∨ method = "PUT")
    (hhost : ∀ c ∈ host.data, c ≠ '\r' ∧ c ≠ '\n')
    (hpath : ∀ c ∈ pathname.data, c ≠ '\r' ∧ c ≠ '\n')
    (hheaders : ∀ h ∈ headers, h ≠ "" ∧ ∀ c ∈ h.data, c ≠ '\r' ∧ c ≠ '\n') :
    ∀ x ∈ standardLines method pathname host ++ headers ++ ["content-Length: " ++ toString n],
      x.data ≠ [] ∧ ∀ c ∈ x.data, c ≠ '\r' ∧ c ≠ '\n' := by
  intro x hx
  simp only [standardLines, List.mem_append, List.mem_cons, List.mem_singleton,
    List.not_mem_nil, or_false] at hx
  rcases hx with ((rfl | rfl | rfl | rfl) | hx) | rfl
  · have hm : method ≠ "" ∧ ∀ c ∈ method.data, c ≠ '\r' ∧ c ≠ '\n' := by
      rcases hmethod with rfl | rfl <;> exact ⟨by decide, by decide⟩
    refine ⟨?_, ?_⟩
    · rw [String.append_assoc, String.append_assoc]
      exact append_data_ne_nil _ _ hm.1
    · exact plain_append _ _ (plain_append _ _ (plain_append _ _ hm.2 (by decide)) hpath)
        (by decide)
  · exact ⟨append_data_ne_nil _ _ (by decide), plain_append _ _ (by decide) hhost⟩
  · exact ⟨by decide, by decide⟩
  · exact ⟨by decide, by decide⟩
  · obtain ⟨hne, hp⟩ := hheaders x hx
    exact ⟨fun h => hne (String.ext h), hp⟩
  · exact ⟨append_data_ne_nil _ _ (by decide),
      plain_append _ _ (by decide) (toString_not_crlf n)⟩

/-- C17: in every POST or PUT request `main` constructs successfully, with no CR or LF in host,
pathname and custom headers and no empty custom header, the serialized request is the lines up
to the `content-Length` line, then CRLF CRLF, then the body immediately followed by CRLF CRLF.
That CRLF CRLF is the first one in the request, and the text after it has the declared number
of bytes plus 4. -/
theorem main_bytes_after_first_blank_line (parseURL : String → Option URL)
    (url host pathname protocol method : String) (body : Option String)
    (header : Option (List String)) (call : SocketCall)
    (hurl : parseURL url = some ⟨host, pathname, protocol⟩)
    (hmethod : method = "POST" ∨ method = "PUT")
    (hmain : main parseURL url ⟨some method, body, header⟩ = .ok call)
    (hhost : ∀ c ∈ host.data, c ≠ '\r' ∧ c ≠ '\n')
    (hpath : ∀ c ∈ pathname.data, c ≠ '\r' ∧ c ≠ '\n')
    (hheaders : ∀ h ∈ header.getD [], h ≠ "" ∧ ∀ c ∈ h.data, c ≠ '\r' ∧ c ≠ '\n') :
    ∃ (pre b : String), body = some b ∧
      pre = String.intercalate "\r\n"
        ([method ++ " " ++ pathname ++ " HTTP/1.1", "Host: " ++ host, "Accept: */*",
          "Connection: close"] ++ header.getD [] ++
          ["content-Length: " ++ toString b.toUTF8.size]) ∧
      call.httpProtocol = pre ++ "\r\n\r\n" ++ (b ++ "\r\n\r\n") ∧
      (∀ x y : String, pre ++ "\r\n\r" ≠ x ++ "\r\n\r\n" ++ y) ∧
      (b ++ "\r\n\r\n").toUTF8.size = b.toUTF8.size + 4 := by
  obtain ⟨u, lines, hl, rfl⟩ := main_ok parseURL url _ call hmain
  obtain ⟨m, hv, hp, hshape⟩ := mainLines_ok parseURL url _ u lines hl
  have hacc : method ∈ ACCEPTED_METHODS := by
    rcases hmethod with rfl | rfl <;> decide
  have hm : m = method := by
    have h2 := validateMethod_accepted method hacc
    simp only at hv
    rw [h2] at hv
    exact (Except.ok.inj hv).symm
  subst hm
  have hu : u = ⟨host, pathname, protocol⟩ := by
    rw [hurl] at hp
    exact (Option.some.inj hp).symm
  subst hu
  have hi : includes BODY_ALLOWED_METHODS (some m) = true := by
    rcases hmethod with rfl | rfl <;> decide
  rcases hshape with ⟨hf, -⟩ | ⟨-, b, hb, -, hlines⟩
  · simp only at hf
    rw [hi] at hf
    cases hf
  simp only at hb hlines
  refine ⟨_, b, hb, rfl, ?_, ?_, ?_⟩
  · apply String.ext
    rw [hlines]
    simp only [standardLines, List.cons_append, List.nil_append, String.data_append,
      intercalate_cons_data, List.map_append, List.map_cons, List.map_nil, List.flatten_append,
      List.flatten_cons, List.flatten_nil, List.append_assoc, List.append_nil]
  · intro x y hxy
    have hplain := request_lines_plain m pathname host (header.getD []) b.toUTF8.size hmethod
      hhost hpath hheaders
    have hj := (joined_plain_lines
      ((["Host: " ++ host, "Accept: */*", "Connection: close"] ++ header.getD [] ++
        ["content-Length: " ++ toString b.toUTF8.size]).map String.data)
      (m ++ " " ++ pathname ++ " HTTP/1.1").data
      (by
        intro z hz
        rcases List.mem_cons.1 hz with rfl | hz
        · exact hplain _ (by simp [standardLines])
        · obtain ⟨w, hw, rfl⟩ := List.mem_map.1 hz
          refine hplain w ?_
          simp only [standardLines, List.cons_append, List.nil_append, List.mem_cons,
            List.mem_append, List.mem_singleton, List.not_mem_nil, or_false] at hw ⊢
          tauto)).1
    apply hj
    have hlist : [m ++ " " ++ pathname ++ " HTTP/1.1", "Host: " ++ host, "Accept: */*",
          "Connection: close"] ++ header.getD [] ++
          ["content-Length: " ++ toString b.toUTF8.size] =
        (m ++ " " ++ pathname ++ " HTTP/1.1") ::
          (["Host: " ++ host, "Accept: */*", "Connection: close"] ++ header.getD [] ++
            ["content-Length: " ++ toString b.toUTF8.size]) := rfl
    have hd := congrArg String.data hxy
    rw [hlist, String.data_append, String.data_append, String.data_append,
      intercalate_cons_data] at hd
    refine ⟨x.data ++ ['\r'], y.data, ?_⟩
    have e1 : x.data ++ ['\r'] ++ ['\n', '\r', '\n'] ++ y.data =
        x.data ++ "\r\n\r\n".data ++ y.data := by
      show _ = x.data ++ ['\r', '\n', '\r', '\n'] ++ y.data
      simp
    rw [e1, ← hd, List.map_map]
    rfl
  · rw [String.size_toUTF8, String.size_toUTF8, utf8ByteSize_eq_go, utf8ByteSize_eq_go,
      String.data_append]
    show String.utf8Len (b.data ++ _) = String.utf8Len b.data + 4
    rw [String.utf8Len_append]
    rfl

/-- C17 on the POST example of the specification: the declared length is 7 and the text after
the first CRLF CRLF is the 7-byte body followed by CRLF CRLF. -/
theorem main_bytes_after_first_blank_line_witness :
    ∃ (pre b : String), (some "\x7b\"a\":1\x7d" : Option String) = some b ∧
      "POST /foo HTTP/1.1\r\nHost: example.com\r\nAccept: */*\r\nConnection: close\r\nContent-Type: application/json\r\ncontent-Length: 7\r\n\r\n\x7b\"a\":1\x7d\r\n\r\n" =
        pre ++ "\r\n\r\n" ++ (b ++ "\r\n\r\n") ∧
      (∀ x y : String, pre ++ "\r\n\r" ≠ x ++ "\r\n\r\n" ++ y) ∧
      (b ++ "\r\n\r\n").toUTF8.size = b.toUTF8.size + 4 := by
  obtain ⟨pre, b, hb, -, h1, h2, h3⟩ := main_bytes_after_first_blank_line exampleURL
    "http://example.com/foo" "example.com" "/foo" "http:" "POST" (some "\x7b\"a\":1\x7d")
    (some ["Content-Type: application/json"])
    ⟨"example.com", 80,
      "POST /foo HTTP/1.1\r\nHost: example.com\r\nAccept: */*\r\nConnection: close\r\nContent-Type: application/json\r\ncontent-Length: 7\r\n\r\n\x7b\"a\":1\x7d\r\n\r\n"⟩
    (by decide) (by decide) (by decide) (by decide) (by decide) (by decide)
  exact ⟨pre, b, hb, h1, h2, h3⟩

/-! ## Fail fast -/

theorem run_bind_result {α β : Type} (x : Run α) (f : α → Run β) :
    (x >>= f).result = x.result.bind (fun a => (f a).result) := by
  show (Run.bind x f).result = _
  unfold Run.bind
  cases x.result <;> rfl

theorem run_bind_effects_error {α β : Type} (x : Run α) (f : α → Run β) (e : JSError)
    (h : x.result = .error e) : (x >>= f).effects = x.effects := by
  show (Run.bind x f).effects = _
  unfold Run.bind
  rw [h]

theorem run_bind_effects_ok {α β : Type} (x : Run α) (f : α → Run β) (a : α)
    (h : x.result = .ok a) : (x >>= f).effects = x.effects ++ (f a).effects := by
  show (Run.bind x f).effects = _
  unfold Run.bind
  rw [h]

theorem quiet_bind {α β : Type} (x : Run α) (f : α → Run β) (hx : x.quiet)
    (hf : ∀ a, (f a).quiet) : (x >>= f).quiet := by
  intro e he
  cases hr : x.result with
  | error err =>
    rw [run_bind_effects_error x f err hr] at he
    exact hx e he
  | ok a =>
    rw [run_bind_effects_ok x f a hr, List.mem_append] at he
    rcases he with he | he
    · exact hx e he
    · exact hf a e he

theorem quiet_pure {α : Type} (a : α) : (pure a : Run α).quiet := by
  intro e he
  cases he

theorem quiet_raise {α : Type} (err : JSError) : (raise err : Run α).quiet := by
  intro e he
  cases he

theorem quiet_perform (eff : Effect) (h : eff.onNetwork = false) : (perform eff).quiet := by
  intro e he
  rw [perform, List.mem_singleton] at he
  rw [he]
  exact h

theorem traced_validateMethod (method : Option String) :
    Traced.validateMethod method = ⟨[], validateMethod method⟩ := by
  unfold Traced.validateMethod validateMethod
  dsimp only
  split <;> rfl

theorem traced_validateBody (body method : Option String) :
    (Traced.validateBody body method).result = validateBody body method ∧
      (Traced.validateBody body method).quiet := by
  unfold Traced.validateBody validateBody
  split
  · exact ⟨rfl, quiet_bind _ _ (quiet_perform _ rfl) (fun _ => quiet_raise _)⟩
  · exact ⟨rfl, quiet_pure _⟩

theorem traced_buildBaseProtocolText (host pathname protocol method : String)
    (headers : Option (List String)) :
    (Traced.buildBaseProtocolText host pathname protocol method headers).result =
        buildBaseProtocolText host pathname protocol method headers ∧
      (Traced.buildBaseProtocolText host pathname protocol method headers).quiet := by
  unfold Traced.buildBaseProtocolText buildBaseProtocolText
  split
  · exact ⟨rfl, quiet_bind _ _ (quiet_perform _ rfl) (fun _ => quiet_raise _)⟩
  · exact ⟨rfl, quiet_bind _ _ (quiet_perform _ rfl) (fun _ => quiet_pure _)⟩

theorem traced_checkForBody (body : Option String) :
    (Traced.checkForBody body).result = checkForBody body ∧
      (Traced.checkForBody body).quiet := by
  unfold Traced.checkForBody checkForBody
  split
  · exact ⟨rfl, quiet_bind _ _ (quiet_perform _ rfl) (fun _ => quiet_raise _)⟩
  · exact ⟨rfl, quiet_pure _⟩

theorem traced_checkForContentType (httpProtocol : List String) :
    (Traced.checkForContentType httpProtocol).result = checkForContentType httpProtocol ∧
      (Traced.checkForContentType httpProtocol).quiet := by
  unfold Traced.checkForContentType checkForContentType
  dsimp only
  split
  · exact ⟨rfl, quiet_bind _ _ (quiet_perform _ rfl) (fun _ => quiet_raise _)⟩
  · exact ⟨rfl, quiet_pure _⟩

theorem traced_putAndPostHttpExtension (body : Option String) (httpProtocol : List String) :
    (Traced.putAndPostHttpExtension body httpProtocol).result =
        putAndPostHttpExtension body httpProtocol ∧
      (Traced.putAndPostHttpExtension body httpProtocol).quiet := by
  unfold Traced.putAndPostHttpExtension putAndPostHttpExtension
  refine ⟨?_, ?_⟩
  · rw [run_bind_result, run_bind_result, (traced_checkForBody body).1,
      (traced_checkForContentType httpProtocol).1]
    rfl
  · exact quiet_bind _ _ (traced_checkForBody body).2
      (fun _ => quiet_bind _ _ (traced_checkForContentType httpProtocol).2
        (fun _ => quiet_pure _))

theorem traced_mainRequest_result (parseURL : String → Option URL) (url : String)
    (options : Options) :
    (Traced.mainRequest parseURL url options).result = main parseURL url options := by
  unfold Traced.mainRequest main mainLines
  cases parseURL url with
  | none =>
    simp only [run_bind_result, traced_validateMethod, (traced_validateBody _ _).1]
    cases validateMethod options.method with
    | error e => rfl
    | ok m => cases validateBody options.body options.method <;> rfl
  | some u =>
    by_cases hi : includes BODY_ALLOWED_METHODS options.method = true
    · simp only [hi, if_true, run_bind_result, traced_validateMethod,
        (traced_validateBody _ _).1, (traced_buildBaseProtocolText _ _ _ _ _).1,
        (traced_putAndPostHttpExtension _ _).1]
      cases validateMethod options.method with
      | error e => rfl
      | ok m =>
        cases validateBody options.body options.method with
        | error e => rfl
        | ok x =>
          cases hbase : buildBaseProtocolText u.host u.pathname u.protocol m options.header with
          | error e => simp only [hbase, bind, Except.bind, pure, Except.pure]
          | ok base =>
            cases hext : putAndPostHttpExtension options.body base with
            | error e => simp only [hbase, hext, bind, Except.bind, pure, Except.pure]
            | ok lines =>
              simp only [hbase, hext, bind, Except.bind, pure, Except.pure]
              rfl
    · simp only [hi, run_bind_result, traced_validateMethod,
        (traced_validateBody _ _).1, (traced_buildBaseProtocolText _ _ _ _ _).1]
      cases validateMethod options.method with
      | error e => rfl
      | ok m =>
        cases validateBody options.body options.method with
        | error e => rfl
        | ok x =>
          cases hbase : buildBaseProtocolText u.host u.pathname u.protocol m options.header with
          | error e => simp only [hbase, bind, Except.bind, pure, Except.pure]
          | ok base =>
            simp only [hbase, bind, Except.bind, pure, Except.pure]
            rfl

theorem traced_mainRequest_quiet (parseURL : String → Option URL) (url : String)
    (options : Options) : (Traced.mainRequest parseURL url options).quiet := by
  unfold Traced.mainRequest
  refine quiet_bind _ _ ?_ (fun httpMethod => ?_)
  · rw [traced_validateMethod]
    intro e he
    cases he
  refine quiet_bind _ _ (traced_validateBody _ _).2 (fun _ => ?_)
  dsimp only
  cases parseURL url <;> dsimp only <;>
    refine quiet_bind _ _ (by first | exact quiet_pure _ | exact quiet_raise _) (fun u => ?_) <;>
    refine quiet_bind _ _ (traced_buildBaseProtocolText _ _ _ _ _).2 (fun base => ?_) <;>
    dsimp only <;>
    split <;>
    refine quiet_bind _ _
      (by first | exact (traced_putAndPostHttpExtension _ _).2 | exact quiet_pure _)
      (fun lines => ?_) <;>
    exact quiet_bind _ _ (quiet_perform _ rfl) (fun _ => quiet_pure _)

theorem traced_handleSocketEvents (host : String) (port : Nat) (httpProtocol : String) :
    (Traced.handleSocketEvents host port httpProtocol).effects =
        [Effect.createConnection host port] ∧
      ∃ socket, (Traced.handleSocketEvents host port httpProtocol).result = .ok socket :=
  ⟨rfl, _, rfl⟩

theorem writes_append (a b : List Effect) : writes (a ++ b) = writes a ++ writes b := by
  simp [writes, List.filterMap_append]

theorem writes_of_quiet (l : List Effect) (h : ∀ e ∈ l, e.onNetwork = false) :
    writes l = [] := by
  induction l with
  | nil => rfl
  | cons e l ih =>
    have he := h e (List.mem_cons_self _ _)
    have hl := ih (fun x hx => h x (List.mem_cons_of_mem _ hx))
    cases e <;> first | exact hl | cases he

theorem traced_main_cases (parseURL : String → Option URL) (url : String)
    (options : Options) :
    (∃ e, main parseURL url options = .error e ∧
        (Traced.main parseURL url options).result = .error e ∧
        (Traced.main parseURL url options).effects =
          (Traced.mainRequest parseURL url options).effects) ∨
      (∃ call socket, main parseURL url options = .ok call ∧
        (Traced.main parseURL url options).result = .ok socket ∧
        (Traced.main parseURL url options).effects =
          (Traced.mainRequest parseURL url options).effects ++
            [Effect.createConnection call.host call.port]) := by
  have hres := traced_mainRequest_result parseURL url options
  cases hm : main parseURL url options with
  | error e =>
    rw [hm] at hres
    refine Or.inl ⟨e, rfl, ?_, ?_⟩
    · unfold Traced.main
      rw [run_bind_result, hres]
      rfl
    · unfold Traced.main
      exact run_bind_effects_error _ _ e hres
  | ok call =>
    rw [hm] at hres
    obtain ⟨heff, socket, hsock⟩ :=
      traced_handleSocketEvents call.host call.port call.httpProtocol
    refine Or.inr ⟨call, socket, rfl, ?_, ?_⟩
    · unfold Traced.main
      rw [run_bind_result, hres]
      exact hsock
    · unfold Traced.main
      rw [run_bind_effects_ok _ _ call hres, heff]

/-- C11: `main` fails fast. It throws exactly the errors of the request construction; whenever
it throws, no connection has been created, nothing has been written to a socket and no socket
has been ended. A connection is created only when the whole construction has succeeded: it is
then the last effect of `main`, on the host and port of the constructed request, and everything
before it is logging. `main` itself never writes to the socket. -/
theorem main_fail_fast (parseURL : String → Option URL) (url : String) (options : Options) :
    (∀ e, (Traced.main parseURL url options).result = .error e ↔
        main parseURL url options = .error e) ∧
      (∀ e, main parseURL url options = .error e →
        (∀ host port, Effect.createConnection host port ∉
          (Traced.main parseURL url options).effects) ∧
        (∀ text, Effect.socketWrite text ∉ (Traced.main parseURL url options).effects) ∧
        ∀ eff ∈ (Traced.main parseURL url options).effects, eff.onNetwork = false) ∧
      (∀ host port, Effect.createConnection host port ∈
          (Traced.main parseURL url options).effects →
        ∃ call pre, main parseURL url options = .ok call ∧ call.host = host ∧
          call.port = port ∧
          (Traced.main parseURL url options).effects =
            pre ++ [Effect.createConnection host port] ∧
          ∀ eff ∈ pre, eff.onNetwork = false) ∧
      writes (Traced.main parseURL url options).effects = [] := by
  have hq := traced_mainRequest_quiet parseURL url options
  rcases traced_main_cases parseURL url options with ⟨e, hm, hr, heff⟩ |
    ⟨call, socket, hm, hr, heff⟩
  · have hquiet : ∀ eff ∈ (Traced.main parseURL url options).effects,
        eff.onNetwork = false := by
      rw [heff]
      exact hq
    refine ⟨?_, ?_, ?_, writes_of_quiet _ hquiet⟩
    · intro e2
      rw [hm, hr]
      constructor <;> intro h <;> cases h <;> rfl
    · intro e2 _
      refine ⟨?_, ?_, hquiet⟩
      · intro host port hmem
        have hc := hquiet _ hmem
        simp [Effect.onNetwork] at hc
      · intro text hmem
        have hc := hquiet _ hmem
        simp [Effect.onNetwork] at hc
    · intro host port hmem
      have hc := hquiet _ hmem
      simp [Effect.onNetwork] at hc
  · refine ⟨?_, ?_, ?_, ?_⟩
    · intro e2
      rw [hm, hr]
      constructor <;> intro h <;> cases h
    · intro e2 he2
      rw [hm] at he2
      cases he2
    · intro host port hmem
      rw [heff, List.mem_append, List.mem_singleton] at hmem
      rcases hmem with hmem | hmem
      · have hc := hq _ hmem
        simp [Effect.onNetwork] at hc
      · have hh : host = call.host := (Effect.createConnection.inj hmem).1
        have hp : port = call.port := (Effect.createConnection.inj hmem).2
        subst hh
        subst hp
        exact ⟨call, _, hm, rfl, rfl, heff, hq⟩
    · rw [heff, writes_append, writes_of_quiet _ hq]
      rfl

/-- C11 on two examples: POST with a body and no Content-Type header throws after logging
only; the GET request of the specification creates the connection as its last effect. -/
theorem main_fail_fast_witness :
    ((Traced.main exampleURL "http://example.com/foo" ⟨some "POST", some "x", none⟩).effects =
        [Effect.consoleLog "POST",
          Effect.loggerError "No Content-Type header has been supplied"] ∧
      ∀ host port, Effect.createConnection host port ∉
        (Traced.main exampleURL "http://example.com/foo" ⟨some "POST", some "x", none⟩).effects) ∧
    (Traced.main exampleURL "http://example.com/foo" ⟨none, none, none⟩).effects =
      [Effect.consoleLog "GET",
        Effect.loggerDebug (some
          "GET /foo HTTP/1.1\r\nHost: example.com\r\nAccept: */*\r\nConnection: close\r\n\r\n"),
        Effect.createConnection "example.com" 80] :=
  ⟨⟨by decide,
    ((main_fail_fast exampleURL "http://example.com/foo" ⟨some "POST", some "x", none⟩).2.1
      JSError.NoContentTypeHeader (by decide)).1⟩, by decide⟩

/-! ## The order of writes on the connection -/

theorem runListeners_writes (ls : List (String → Run Unit)) (a : String)
    (h : ∀ l ∈ ls, writes (l a).effects = []) : writes (runListeners ls a).effects = [] := by
  induction ls with
  | nil => rfl
  | cons l ls ih =>
    have hl := h l (List.mem_cons_self _ _)
    have hrest := ih (fun x hx => h x (List.mem_cons_of_mem _ hx))
    unfold runListeners
    cases hr : (l a).result with
    | error e => rw [run_bind_effects_error _ _ e hr, hl]
    | ok u => rw [run_bind_effects_ok _ _ u hr, writes_append, hl, hrest]; rfl

theorem runListeners_ok (ls : List (String → Run Unit)) (a : String)
    (h : ∀ l ∈ ls, (l a).result = .ok ()) : (runListeners ls a).result = .ok () := by
  induction ls with
  | nil => rfl
  | cons l ls ih =>
    unfold runListeners
    rw [run_bind_result, h l (List.mem_cons_self _ _)]
    exact ih (fun x hx => h x (List.mem_cons_of_mem _ hx))

theorem emit_data (text : String) (s : Socket) (hs : s.listening text) (chunk : String) :
    writes (emit s (.data chunk)).effects = [] ∧ (emit s (.data chunk)).result = .ok s := by
  have hw := runListeners_writes s.dataListeners chunk (fun l hl => (hs.1 l hl chunk).1)
  have hr := runListeners_ok s.dataListeners chunk (fun l hl => (hs.1 l hl chunk).2)
  unfold emit
  refine ⟨?_, ?_⟩
  · rw [run_bind_effects_ok _ _ () hr, writes_append, hw]
    rfl
  · rw [run_bind_result, hr]
    rfl

theorem emit_error (text : String) (s : Socket) (hs : s.listening text) (message : String) :
    writes (emit s (.error message)).effects = [] ∧
      ∀ s', (emit s (.error message)).result = .ok s' → s' = s := by
  have hw := runListeners_writes s.errorListeners message (fun l hl => hs.2.1 l hl message)
  unfold emit
  cases hr : (runListeners s.errorListeners message).result with
  | error e =>
    refine ⟨by rw [run_bind_effects_error _ _ e hr, hw], ?_⟩
    intro s' h
    rw [run_bind_result, hr] at h
    cases h
  | ok u =>
    refine ⟨by rw [run_bind_effects_ok _ _ u hr, writes_append, hw]; rfl, ?_⟩
    intro s' h
    rw [run_bind_result, hr] at h
    exact (Except.ok.inj h).symm

theorem emit_connect_done (s : Socket) (hc : s.connectListener = none) :
    emit s .connect = ⟨[], .ok s⟩ := by
  simp only [emit, hc]
  rfl

theorem emit_connect_first (text : String) (s : Socket)
    (hc : s.connectListener = some (perform (.socketWrite text))) :
    emit s .connect = ⟨[.socketWrite text], .ok { s with connectListener := none }⟩ := by
  simp only [emit, hc]
  rfl

theorem listening_after_connect (text : String) (s : Socket) (hs : s.listening text) :
    ({ s with connectListener := none } : Socket).listening text :=
  ⟨hs.1, hs.2.1, Or.inl rfl⟩

theorem emitAll_cons_ok (s s2 : Socket) (event : SocketEvent) (rest : List SocketEvent)
    (h : (emit s event).result = .ok s2) :
    writes (emitAll s (event :: rest)).effects =
        writes (emit s event).effects ++ writes (emitAll s2 rest).effects ∧
      (emitAll s (event :: rest)).result = (emitAll s2 rest).result := by
  have e : emitAll s (event :: rest) = emit s event >>= fun socket => emitAll socket rest :=
    rfl
  rw [e, run_bind_effects_ok _ _ s2 h, run_bind_result, h, writes_append]
  exact ⟨rfl, rfl⟩

theorem emitAll_cons_error (s : Socket) (e : JSError) (event : SocketEvent)
    (rest : List SocketEvent) (h : (emit s event).result = .error e) :
    writes (emitAll s (event :: rest)).effects = writes (emit s event).effects ∧
      (emitAll s (event :: rest)).result = .error e := by
  have e2 : emitAll s (event :: rest) = emit s event >>= fun socket => emitAll socket rest :=
    rfl
  rw [e2, run_bind_effects_error _ _ e h, run_bind_result, h]
  exact ⟨rfl, rfl⟩

theorem emit_step (text : String) (s : Socket) (hs : s.listening text) (event : SocketEvent) :
    (event = .connect ∧ s.connectListener = some (perform (.socketWrite text)) ∧
        writes (emit s event).effects = [text] ∧
        (emit s event).result = .ok { s with connectListener := none }) ∨
      (writes (emit s event).effects = [] ∧
        ((emit s event).result = .ok s ∨ ∃ e, (emit s event).result = .error e)) := by
  cases event with
  | connect =>
    rcases hs.2.2 with hc | hc
    · right
      rw [emit_connect_done s hc]
      exact ⟨rfl, Or.inl rfl⟩
    · left
      rw [emit_connect_first text s hc]
      exact ⟨rfl, hc, rfl, rfl⟩
  | data chunk =>
    right
    exact ⟨(emit_data text s hs chunk).1, Or.inl (emit_data text s hs chunk).2⟩
  | error message =>
    right
    refine ⟨(emit_error text s hs message).1, ?_⟩
    cases hr : (emit s (.error message)).result with
    | error e => exact Or.inr ⟨e, rfl⟩
    | ok s' => exact Or.inl (by rw [(emit_error text s hs message).2 s' hr])

theorem emitAll_spec (text : String) (events : List SocketEvent) :
    ∀ s : Socket, s.listening text →
      (∀ s', (emitAll s events).result = .ok s' → s'.listening text) ∧
      (s.connectListener = none → writes (emitAll s events).effects = []) ∧
      (writes (emitAll s events).effects = [] ∨ writes (emitAll s events).effects = [text]) ∧
      (SocketEvent.connect ∉ events → writes (emitAll s events).effects = []) := by
  induction events with
  | nil =>
    intro s hs
    refine ⟨?_, fun _ => rfl, Or.inl rfl, fun _ => rfl⟩
    intro s' h
    have : s' = s := (Except.ok.inj h).symm
    rw [this]
    exact hs
  | cons event rest ih =>
    intro s hs
    rcases emit_step text s hs event with ⟨hev, hc, hw, hr⟩ | ⟨hw, hr | ⟨e, hr⟩⟩
    · obtain ⟨i1, i2, -, -⟩ := ih _ (listening_after_connect text s hs)
      obtain ⟨c1, c2⟩ := emitAll_cons_ok s _ event rest hr
      have hall : writes (emitAll s (event :: rest)).effects = [text] := by
        rw [c1, hw, i2 rfl]
        rfl
      refine ⟨?_, ?_, Or.inr hall, ?_⟩
      · intro s' h
        rw [c2] at h
        exact i1 s' h
      · intro hn
        rw [hn] at hc
        cases hc
      · intro hno
        exact absurd (hev ▸ List.mem_cons_self _ _) hno
    · obtain ⟨i1, i2, i3, i4⟩ := ih s hs
      obtain ⟨c1, c2⟩ := emitAll_cons_ok s s event rest hr
      have hall : writes (emitAll s (event :: rest)).effects =
          writes (emitAll s rest).effects := by
        rw [c1, hw]
        rfl
      refine ⟨?_, ?_, ?_, ?_⟩
      · intro s' h
        rw [c2] at h
        exact i1 s' h
      · intro hn
        rw [hall]
        exact i2 hn
      · rw [hall]
        exact i3
      · intro hno
        rw [hall]
        exact i4 (fun hmem => hno (List.mem_cons_of_mem _ hmem))
    · obtain ⟨c1, c2⟩ := emitAll_cons_error s e event rest hr
      have hall : writes (emitAll s (event :: rest)).effects = [] := by
        rw [c1, hw]
      refine ⟨?_, fun _ => hall, Or.inl hall, fun _ => hall⟩
      intro s' h
      rw [c2] at h
      cases h

theorem emitAll_write_once (text : String) (pre : List SocketEvent) :
    ∀ s : Socket, s.listening text → s.connectListener = some (perform (.socketWrite text)) →
      (∀ e ∈ pre, ∃ chunk, e = SocketEvent.data chunk) →
      ∀ post, writes (emitAll s (pre ++ SocketEvent.connect :: post)).effects = [text] := by
  induction pre with
  | nil =>
    intro s hs hc _ post
    have hr : (emit s .connect).result = .ok { s with connectListener := none } := by
      rw [emit_connect_first text s hc]
    obtain ⟨c1, -⟩ := emitAll_cons_ok s _ .connect post hr
    rw [List.nil_append, c1, emit_connect_first text s hc,
      (emitAll_spec text post _ (listening_after_connect text s hs)).2.1 rfl]
    rfl
  | cons event pre ih =>
    intro s hs hc hpre post
    obtain ⟨chunk, rfl⟩ := hpre event (List.mem_cons_self _ _)
    obtain ⟨hw, hr⟩ := emit_data text s hs chunk
    obtain ⟨c1, -⟩ := emitAll_cons_ok s s (.data chunk) (pre ++ .connect :: post) hr
    rw [List.cons_append, c1, hw,
      ih s hs hc (fun e he => hpre e (List.mem_cons_of_mem _ he)) post]
    rfl

theorem handleSocketEvents_listening (host : String) (port : Nat) (httpProtocol : String)
    (socket : Socket)
    (h : (Traced.handleSocketEvents host port httpProtocol).result = .ok socket) :
    socket.listening httpProtocol ∧
      socket.connectListener = some (perform (.socketWrite httpProtocol)) := by
  have h2 := Except.ok.inj h
  subst h2
  refine ⟨⟨?_, ?_, Or.inr rfl⟩, rfl⟩
  · intro l hl chunk
    have hl2 := List.mem_singleton.1 hl
    subst hl2
    exact ⟨rfl, rfl⟩
  · intro l hl message
    have hl2 := List.mem_singleton.1 hl
    subst hl2
    rfl

/-- C15: on the socket `handleSocketEvents` sets up, the request is written only at the
`connect` event. Nothing is written while the socket is set up; whatever events follow, nothing
is written as long as no `connect` event has arrived, and the writes are never more than the one
request text; when `connect` arrives after data events only, the request is written exactly
once, whatever comes later; and in every state the socket reaches, a `data` or an `error` event
writes nothing. -/
theorem connection_write_order (host : String) (port : Nat) (httpProtocol : String)
    (socket : Socket)
    (hsocket : (Traced.handleSocketEvents host port httpProtocol).result = .ok socket)
    (events : List SocketEvent) :
    writes (Traced.handleSocketEvents host port httpProtocol).effects = [] ∧
      (SocketEvent.connect ∉ events → writes (emitAll socket events).effects = []) ∧
      (writes (emitAll socket events).effects = [] ∨
        writes (emitAll socket events).effects = [httpProtocol]) ∧
      (∀ pre post, events = pre ++ SocketEvent.connect :: post →
        (∀ e ∈ pre, ∃ chunk, e = SocketEvent.data chunk) →
        writes (emitAll socket events).effects = [httpProtocol]) ∧
      (∀ s', (emitAll socket events).result = .ok s' → ∀ chunk message,
        writes (emit s' (.data chunk)).effects = [] ∧
        writes (emit s' (.error message)).effects = []) := by
  obtain ⟨hs, hc⟩ := handleSocketEvents_listening host port httpProtocol socket hsocket
  obtain ⟨i1, -, i3, i4⟩ := emitAll_spec httpProtocol events socket hs
  refine ⟨rfl, i4, i3, ?_, ?_⟩
  · intro pre post hev hpre
    rw [hev]
    exact emitAll_write_once httpProtocol pre socket hs hc hpre post
  · intro s' hs' chunk message
    have hl := i1 s' hs'
    exact ⟨(emit_data httpProtocol s' hl chunk).1, (emit_error httpProtocol s' hl message).1⟩

/-- C15 on an example: the socket of the GET request of the specification, on the events
connect, data, a second connect and an error, writes the request once and nothing else. -/
theorem connection_write_order_witness :
    ∃ socket,
      (Traced.handleSocketEvents "example.com" 80
        "GET /foo HTTP/1.1\r\nHost: example.com\r\nAccept: */*\r\nConnection: close\r\n\r\n").result =
          .ok socket ∧
      writes (emitAll socket
        [.connect, .data "HTTP/1.1 200 OK\r\n\r\nhello", .connect, .error "reset"]).effects =
        ["GET /foo HTTP/1.1\r\nHost: example.com\r\nAccept: */*\r\nConnection: close\r\n\r\n"] := by
  obtain ⟨socket, hs⟩ := (traced_handleSocketEvents "example.com" 80
    "GET /foo HTTP/1.1\r\nHost: example.com\r\nAccept: */*\r\nConnection: close\r\n\r\n").2
  exact ⟨socket, hs, (connection_write_order "example.com" 80 _ socket hs
    [.connect, .data "HTTP/1.1 200 OK\r\n\r\nhello", .connect, .error "reset"]).2.2.2.1
    [] [.data "HTTP/1.1 200 OK\r\n\r\nhello", .connect, .error "reset"] rfl
    (fun e he => absurd he (List.not_mem_nil e))⟩

end EdlyCurl
